import Mathlib

/-!
# myMPD bookmark store (`src/mympd_api/mympd_api_bookmarks.c`)

A shallow embedding of the three public functions of the file,
`mympd_api_bookmark_update`, `mympd_api_bookmark_clear` and
`mympd_api_bookmark_list`, and of the private `write_bookmarks_line`.

Conventions of the embedding

* A byte is a natural number, a file content or a line buffer is a list of
  bytes, a C string is the list of its bytes before the terminating NUL.
* The state directory is the record `FS`: the content of
  `state/bookmark_list` when the file exists, and the contents of the
  `bookmark_list.XXXXXX` files present next to it.
* The outcome of the system calls that can fail is read from the record `Sys`.
* `json_scanf` (frozen), `tojson_long` and `tojson_char` (utility.c) are not
  part of this source file; they are the fields of the record `Helpers` and
  every general theorem holds for all of them.
* `int` values (`id`, `lid`, `line_nr`) are mathematical integers: signed
  overflow of `line_nr` is undefined in C and is outside the embedding.
  `unsigned` values (`entity_count`, `entities_returned`, the sum
  `offset + config->max_elements_per_page`) are natural numbers reduced
  modulo `2 ^ 32` after every operation.
* `fputs` returns 1 on success, as glibc does; a failed `fputs` is taken to
  leave the stream as it was. The stream `fo` is taken unbuffered: the line of
  a `fputs` that returns success is in the file. The result of `fclose(fo)`,
  which the source does not look at, is not part of the embedding, so a line
  lost in a buffer at `fclose` is not described.
  `fopen(b_file, "r")` fails exactly when the store file does not exist;
  `fdopen` does not fail.
-/

namespace MyMPD

/-! ## Data model -/

/-- Bytes of a file or of a line buffer. -/
abbrev Bytes := List Nat

/-- A C string, without its terminating NUL. -/
abbrev CStr := List Nat

/-- The four values `json_scanf` stores through `&lid, &lname, &luri, &ltype`,
which are also the four values handed to `write_bookmarks_line`. -/
structure Bookmark where
  id : Int
  name : CStr
  uri : CStr
  type : CStr
deriving DecidableEq, Repr

/-- Functions called by the file whose code lives elsewhere.
`json_scanf line` is `some b` exactly when the call with the format
`{id: %d, name: %Q, uri: %Q, type: %Q}` returns 4, and `b` holds the scanned
values. `tojson_long buffer key value comma` and
`tojson_char buffer key value comma` return the extended buffer. -/
structure Helpers where
  json_scanf : Bytes → Option Bookmark
  tojson_long : Bytes → CStr → Int → Bool → Bytes
  tojson_char : Bytes → CStr → CStr → Bool → Bytes

/-- Outcome of the system calls of one API call.
`fputs_ok k` tells whether the `k`-th `fputs` on the temporary stream
(counted from 0) succeeds; `unlink_ok` and `fopen_w_ok` are consulted only
when the call is made. -/
structure Sys where
  mkstemp_ok : Bool
  fputs_ok : Nat → Bool
  rename_ok : Bool
  unlink_ok : Bool
  fopen_w_ok : Bool

/-- The state directory: `store` is the content of `state/bookmark_list`
(`none` when the file does not exist), `temps` the contents of the
`state/bookmark_list.XXXXXX` files. -/
structure FS where
  store : Option Bytes
  temps : List Bytes
deriving DecidableEq, Repr

/-- The stream `fo`: bytes written so far and number of `fputs` calls made. -/
structure OStream where
  data : Bytes
  calls : Nat
deriving DecidableEq, Repr

/-! ## libc -/

/-- Lines handed out by successive `getline` calls, `cur` being the bytes of
the current line read so far, in reverse. A line ends after its newline
(byte 10); the last line may lack one. -/
def getlinesAux : Bytes → Bytes → List Bytes
  | cur, [] => if cur = [] then [] else [cur.reverse]
  | cur, b :: rest =>
    if b = 10 then (b :: cur).reverse :: getlinesAux [] rest
    else getlinesAux (b :: cur) rest

/-- All the lines `while (getline(&line, &n, fi) > 0)` iterates over. -/
def getlines (content : Bytes) : List Bytes := getlinesAux [] content

/-- The value of `strcmp a b`: difference of the first two bytes that differ,
the terminating NUL counting as byte 0. -/
def strcmp : CStr → CStr → Int
  | [], [] => 0
  | [], b :: _ => 0 - (b : Int)
  | a :: _, [] => (a : Int)
  | a :: as, b :: bs => if a = b then strcmp as bs else (a : Int) - (b : Int)

/-- The C string a buffer holds: its bytes up to the first NUL. -/
def cstr : Bytes → CStr
  | [] => []
  | b :: rest => if b = 0 then [] else b :: cstr rest

/-- Second phase of `strtok_r(line, "\n", &crap)`: the token has started; the
first newline before any NUL is overwritten with NUL. -/
def strtok_end : Bytes → Bytes
  | [] => []
  | b :: rest =>
    if b = 0 then b :: rest
    else if b = 10 then 0 :: rest
    else b :: strtok_end rest

/-- The line buffer after `strtok_r(line, "\n", &crap)`: leading newlines are
skipped; when the string ends there, there is no token and the buffer is
left as it is. -/
def strtok_r : Bytes → Bytes
  | [] => []
  | b :: rest =>
    if b = 10 then b :: strtok_r rest
    else strtok_end (b :: rest)

/-- The call `fputs(line, fp)`: a positive value and the line appended on success, EOF
(-1) and nothing appended on failure. The stream is taken unbuffered: what a
successful call appends is in the file, and `fclose` adds or loses nothing. -/
def fputs (sys : Sys) (line : Bytes) (fp : OStream) : Int × OStream :=
  if sys.fputs_ok fp.calls then (1, { data := fp.data ++ line, calls := fp.calls + 1 })
  else (-1, { data := fp.data, calls := fp.calls + 1 })

/-! ## write_bookmarks_line -/

/-- The line `write_bookmarks_line` builds before writing it. -/
def bookmarks_line (x : Helpers) (id : Int) (name uri type : CStr) : Bytes :=
  let line := [123]                                           -- "{"
  let line := x.tojson_long line [105, 100] id true           -- "id"
  let line := x.tojson_char line [110, 97, 109, 101] name true -- "name"
  let line := x.tojson_char line [117, 114, 105] uri true     -- "uri"
  let line := x.tojson_char line [116, 121, 112, 101] type false -- "type"
  line ++ [125, 10]                                           -- "}\n"

/-- The function `write_bookmarks_line(fp, id, name, uri, type)`: true when the
`fputs` of the line returned a positive value. -/
def write_bookmarks_line (x : Helpers) (sys : Sys) (fp : OStream) (id : Int)
    (name uri type : CStr) : Bool × OStream :=
  let line := bookmarks_line x id name uri type
  let r := fputs sys line fp
  if r.1 > 0 then (true, r.2) else (false, r.2)

/-! ## mympd_api_bookmark_update -/

/-- Local variables of `mympd_api_bookmark_update` that change in the loop. -/
structure UpdState where
  line_nr : Int
  inserted : Bool
  fo : OStream
deriving DecidableEq, Repr

/-- One iteration of the `while (getline ...)` loop of
`mympd_api_bookmark_update` (source lines 49-75). -/
def update_step (x : Helpers) (sys : Sys) (id : Int) (name : Option CStr)
    (uri type : CStr) (s : UpdState) (line : Bytes) : UpdState :=
  match x.json_scanf line with
  | some l =>
    let s1 : UpdState :=
      match name with
      | some nm =>
        if strcmp nm l.name < 0 then
          let w := write_bookmarks_line x sys s.fo (s.line_nr + 1) nm uri type
          { line_nr := s.line_nr + 1,
            inserted := if w.1 = true then true else s.inserted,
            fo := w.2 }
        else s
      | none => s
    if l.id ≠ id then
      let w := write_bookmarks_line x sys s1.fo (s1.line_nr + 1) l.name l.uri l.type
      { line_nr := s1.line_nr + 1, inserted := s1.inserted, fo := w.2 }
    else s1
  | none => s

/-- Source lines 80-83 of `mympd_api_bookmark_update`: after the loop the new
record is written when `inserted` is still false. -/
def update_finish (x : Helpers) (sys : Sys) (name : Option CStr) (uri type : CStr)
    (s : UpdState) : UpdState :=
  match name with
  | some nm =>
    if s.inserted = false then
      let w := write_bookmarks_line x sys s.fo (s.line_nr + 1) nm uri type
      { line_nr := s.line_nr + 1, inserted := s.inserted, fo := w.2 }
    else s
  | none => s

/-- Source lines 39-83 of `mympd_api_bookmark_update`: everything written to
the temporary stream `fo`, from `fdopen` to just before `fclose(fo)`. An
absent store file (`fi == NULL`) skips the loop. -/
def update_stream (x : Helpers) (sys : Sys) (fs : FS) (id : Int)
    (name : Option CStr) (uri type : CStr) : UpdState :=
  let s0 : UpdState := { line_nr := 0, inserted := false, fo := { data := [], calls := 0 } }
  let s : UpdState :=
    match fs.store with
    | some content => (getlines content).foldl (update_step x sys id name uri type) s0
    | none => s0
  update_finish x sys name uri type s

/-- The function `mympd_api_bookmark_update(config, id, name, uri, type)`;
`name = none`
is the NULL pointer. Returns the function result and the directory after
the call. -/
def mympd_api_bookmark_update (x : Helpers) (sys : Sys) (fs : FS) (id : Int)
    (name : Option CStr) (uri type : CStr) : Bool × FS :=
  if sys.mkstemp_ok = false then (false, fs)
  else
    let s := update_stream x sys fs id name uri type
    if sys.rename_ok = false then
      (false, { store := fs.store, temps := s.fo.data :: fs.temps })
    else
      (true, { store := some s.fo.data, temps := fs.temps })

/-! ## mympd_api_bookmark_clear -/

/-- The function `mympd_api_bookmark_clear(config)`: `unlink` fails with ENOENT when the
file is absent, and may fail for another reason when it is present. -/
def mympd_api_bookmark_clear (sys : Sys) (fs : FS) : Bool × FS :=
  match fs.store with
  | some _ =>
    if sys.unlink_ok then (true, { store := none, temps := fs.temps })
    else (false, fs)
  | none => (false, fs)

/-! ## mympd_api_bookmark_list -/

/-- Local variables of `mympd_api_bookmark_list` that change in the loop;
`buffer` holds what was appended after the opening bracket of "data". -/
structure ListState where
  entity_count : Nat
  entities_returned : Nat
  buffer : Bytes
deriving DecidableEq, Repr

/-- One iteration of the loop of `mympd_api_bookmark_list` (source lines
143-150). `max_elements_per_page` is `config->max_elements_per_page`, as the
value it has in the unsigned sum. -/
def list_step (offset max_elements_per_page : Nat) (s : ListState) (line : Bytes) :
    ListState :=
  let entity_count := (s.entity_count + 1) % 2 ^ 32
  if entity_count > offset ∧ entity_count ≤ (offset + max_elements_per_page) % 2 ^ 32 then
    let buffer := if s.entities_returned ≠ 0 then s.buffer ++ [44] else s.buffer
    let entities_returned := (s.entities_returned + 1) % 2 ^ 32
    let line := strtok_r line
    { entity_count := entity_count,
      entities_returned := entities_returned,
      buffer := buffer ++ cstr line }
  else
    { entity_count := entity_count,
      entities_returned := s.entities_returned,
      buffer := s.buffer }

/-- The parts of a successful response of `mympd_api_bookmark_list`: the bytes
between the brackets of "data" and the three numbers that follow. -/
structure ListResult where
  data : Bytes
  totalEntities : Nat
  offset : Nat
  returnedEntities : Nat
deriving DecidableEq, Repr

/-- The function
`mympd_api_bookmark_list(config, buffer, method, request_id, offset)`;
`none` is the error response "Failed to open bookmarks file". -/
def mympd_api_bookmark_list (sys : Sys) (fs : FS) (offset max_elements_per_page : Nat) :
    Option ListResult × FS :=
  match fs.store with
  | none =>
    if sys.fopen_w_ok then
      (some { data := [], totalEntities := 0, offset := offset, returnedEntities := 0 },
        { store := some [], temps := fs.temps })
    else (none, fs)
  | some content =>
    let s := (getlines content).foldl (list_step offset max_elements_per_page)
      { entity_count := 0, entities_returned := 0, buffer := [] }
    (some { data := s.buffer, totalEntities := s.entity_count, offset := offset,
            returnedEntities := s.entities_returned }, fs)

/-! ## Views used to state the properties -/

/-- The content of a store file holding the given records in order, the
record in 1-based position `i` written with id `i`. The `id` field of the
list elements is not used. -/
def store_image (x : Helpers) (recs : List Bookmark) : Bytes :=
  (recs.enum.map fun p => bookmarks_line x ((p.1 : Int) + 1) p.2.name p.2.uri p.2.type).flatten

/-- Every `fputs` of the call succeeds, so every line written reaches the file. -/
def Sys.writes_ok (sys : Sys) : Prop := ∀ k, sys.fputs_ok k = true

/-! ## A concrete instance of the helpers, for examples -/

/-- Decimal digits of `n`, at most `fuel` of them. -/
def decimal : Nat → Nat → Bytes
  | 0, _ => []
  | fuel + 1, n => if n < 10 then [48 + n] else decimal fuel (n / 10) ++ [48 + n % 10]

/-- Bytes of a string value between its quotes: quote and backslash are
preceded by a backslash. -/
def escape : CStr → Bytes
  | [] => []
  | b :: rest => if b = 34 ∨ b = 92 then 92 :: b :: escape rest else b :: escape rest

/-- Reads `p` at the head of the input and returns what follows. -/
def expect : Bytes → Bytes → Option Bytes
  | [], s => some s
  | _ :: _, [] => none
  | p :: ps, b :: s => if p = b then expect ps s else none

/-- Reads decimal digits; returns their number, their value and the rest. -/
def scan_digits : Bytes → Nat → Nat → Nat × Nat × Bytes
  | [], cnt, acc => (cnt, acc, [])
  | b :: s, cnt, acc =>
    if 48 ≤ b ∧ b ≤ 57 then scan_digits s (cnt + 1) (acc * 10 + (b - 48))
    else (cnt, acc, b :: s)

/-- Reads a string value after its opening quote, up to the closing quote;
`acc` is the value read so far, in reverse. -/
def scan_string : Bytes → CStr → Option (CStr × Bytes)
  | [], _ => none
  | b :: s, acc =>
    if b = 34 then some (acc.reverse, s)
    else if b = 92 then
      match s with
      | [] => none
      | c :: s2 => scan_string s2 (c :: acc)
    else scan_string s (b :: acc)

/-- Reads `"key":"value"` preceded by `sep`. -/
def scan_field (sep key : Bytes) (s : Bytes) : Option (CStr × Bytes) :=
  match expect (sep ++ [34] ++ key ++ [34, 58, 34]) s with
  | some s1 => scan_string s1 []
  | none => none

/-- Modelled from the spec: `json_scanf`, `tojson_long` and `tojson_char` are
not in this source file. This instance follows the file format of the spec
(one object per line, `id` an unquoted integer, then `name`, `uri`, `type` as
quoted strings) for lines in the compact form that `write_bookmarks_line`
produces; any other line is treated as one that does not scan. It serves to
evaluate the functions on concrete stores. -/
def sample : Helpers where
  json_scanf := fun line =>
    match expect [123, 34, 105, 100, 34, 58] line with
    | none => none
    | some s0 =>
      let neg := s0.head? = some 45
      let d := scan_digits (if neg then s0.tail else s0) 0 0
      if d.1 = 0 then none
      else
        match scan_field [44] [110, 97, 109, 101] d.2.2 with
        | none => none
        | some (name, s1) =>
          match scan_field [44] [117, 114, 105] s1 with
          | none => none
          | some (uri, s2) =>
            match scan_field [44] [116, 121, 112, 101] s2 with
            | none => none
            | some (type, s3) =>
              match expect [125] s3 with
              | none => none
              | some _ =>
                some { id := if neg then -(d.2.1 : Int) else (d.2.1 : Int),
                       name := name, uri := uri, type := type }
  tojson_long := fun buffer key value comma =>
    buffer ++ [34] ++ key ++ [34, 58]
      ++ (if value < 0 then [45] else []) ++ decimal 20 value.natAbs
      ++ (if comma then [44] else [])
  tojson_char := fun buffer key value comma =>
    buffer ++ [34] ++ key ++ [34, 58, 34] ++ escape value ++ [34]
      ++ (if comma then [44] else [])

/-- A system in which every call succeeds. -/
def sys_ok : Sys where
  mkstemp_ok := true
  fputs_ok := fun _ => true
  rename_ok := true
  unlink_ok := true
  fopen_w_ok := true

/-! ## What a rewrite with successful writes produces -/

/-- The new record of an upsert; with `name = NULL` no line is built from it. -/
def new_record (id : Int) (name : Option CStr) (uri type : CStr) : Bookmark :=
  { id := id, name := name.getD [], uri := uri, type := type }

/-- The test `name != NULL && strcmp(name, lname) < 0` of the loop. -/
def name_before (name : Option CStr) (l : Bookmark) : Bool :=
  match name with
  | some nm => decide (strcmp nm l.name < 0)
  | none => false

/-- Lines written by the loop for the scanned records `olds`, in order:
`none` stands for a line built from the new record, `some l` for the line
built from the old record `l`. -/
def loop_entries (id : Int) (name : Option CStr) : List Bookmark → List (Option Bookmark)
  | [] => []
  | l :: ls =>
    (if name_before name l then [none] else [])
      ++ ((if l.id ≠ id then [some l] else []) ++ loop_entries id name ls)

/-- Lines written by the whole call, the one after the loop included. -/
def update_entries (id : Int) (name : Option CStr) (olds : List Bookmark) :
    List (Option Bookmark) :=
  loop_entries id name olds
    ++ (if name.isSome && !(olds.any (name_before name)) then [none] else [])

/-- The records behind the written lines. -/
def update_records (id : Int) (name : Option CStr) (uri type : CStr)
    (olds : List Bookmark) : List Bookmark :=
  (update_entries id name olds).map fun e => e.getD (new_record id name uri type)

/-- The records scanned from the lines of the store; an absent store has none. -/
def old_records (x : Helpers) (fs : FS) : List Bookmark :=
  match fs.store with
  | some content => (getlines content).filterMap x.json_scanf
  | none => []

/-- Lines for `recs`, numbered from `n + 1`. -/
def render (x : Helpers) : Int → List Bookmark → Bytes
  | _, [] => []
  | n, r :: rs => bookmarks_line x (n + 1) r.name r.uri r.type ++ render x (n + 1) rs

/-- The state reached from `s` after writing `recs` with successful writes. -/
def after_writes (x : Helpers) (s : UpdState) (recs : List Bookmark) (ins : Bool) : UpdState :=
  { line_nr := s.line_nr + recs.length,
    inserted := s.inserted || ins,
    fo := { data := s.fo.data ++ render x s.line_nr recs, calls := s.fo.calls + recs.length } }

/-! ## Writes that may fail -/

/-- Bytes that reach the stream when the lines for `recs` are written by the
`fputs` calls number `n`, `n + 1`, ...: the call number `k` writes the line
with id `k + 1`, and only when it succeeds. -/
def render_sys (x : Helpers) (sys : Sys) : Nat → List Bookmark → Bytes
  | _, [] => []
  | n, r :: rs =>
    (if sys.fputs_ok n then bookmarks_line x ((n : Int) + 1) r.name r.uri r.type else [])
      ++ render_sys x sys (n + 1) rs

/-- The loop state `s` has made `n` write attempts with `line_nr = n`, and
reaches `t` by the attempts `recs`. -/
def Attempts (x : Helpers) (sys : Sys) (s t : UpdState) (recs : List Bookmark) : Prop :=
  t.line_nr = s.line_nr + (recs.length : Int)
    ∧ t.fo.calls = s.fo.calls + recs.length
    ∧ t.fo.data = s.fo.data ++ render_sys x sys s.fo.calls recs

/-! ## Listing -/

/-- A line without its terminating newline. -/
def strip_newline (line : Bytes) : Bytes :=
  if line.getLast? = some 10 then line.dropLast else line

/-- The bytes of "data" for the given records: the records in order, separated
by commas (byte 44). -/
def comma_separated : List Bytes → Bytes
  | [] => []
  | [r] => r
  | r :: r2 :: rs => r ++ [44] ++ comma_separated (r2 :: rs)

/-- The lines whose 1-based position `c` satisfies
`offset < c ∧ c ≤ offset + pageSize`, in file order; the first line of `lines`
has position `start + 1`. -/
def page_from (start : Nat) (lines : List Bytes) (offset pageSize : Nat) : List Bytes :=
  ((lines.enumFrom start).filter fun q =>
    decide (offset < q.1 + 1 ∧ q.1 + 1 ≤ offset + pageSize)).map Prod.snd

/-- The page of a store: positions counted from 1. -/
def page (lines : List Bytes) (offset pageSize : Nat) : List Bytes :=
  page_from 0 lines offset pageSize

/-- The buffer after appending `recs` the way the loop does, `r` records having
been appended before. -/
def append_records : Nat → Bytes → List Bytes → Bytes
  | _, buf, [] => buf
  | r, buf, x :: xs => append_records (r + 1) ((if r ≠ 0 then buf ++ [44] else buf) ++ x) xs

/-! ## Sample stores and systems -/

/-- A record with a one-byte name, uri "u" and type "t". -/
def bm (id : Int) (name : Nat) : Bookmark :=
  { id := id, name := [name], uri := [117], type := [116] }

/-- A store holding the records named A, E, F with ids 1, 2, 3. -/
def store_AEF : FS :=
  { store := some (store_image sample [bm 1 65, bm 2 69, bm 3 70]), temps := [] }

/-- A store holding the line "garbage" followed by the record named Z with id 7. -/
def store_corrupt : FS :=
  { store := some ([103, 97, 114, 98, 97, 103, 101, 10]
      ++ bookmarks_line sample 7 [90] [117] [116]),
    temps := [] }

/-- A system in which the rename fails. -/
def sys_rename_fails : Sys :=
  { mkstemp_ok := true, fputs_ok := fun _ => true, rename_ok := false,
    unlink_ok := true, fopen_w_ok := true }

/-- A system in which the first write to the temporary file fails. -/
def sys_first_write_fails : Sys :=
  { mkstemp_ok := true, fputs_ok := fun k => decide (k ≠ 0), rename_ok := true,
    unlink_ok := true, fopen_w_ok := true }

/-- A store without a store file. -/
def store_absent : FS := { store := none, temps := [] }

/-- A store holding the records A, B, C with the stored ids 5, 5, 1. -/
def store_ids_551 : FS :=
  { store := some (bookmarks_line sample 5 [65] [117] [116]
      ++ bookmarks_line sample 5 [66] [117] [116]
      ++ bookmarks_line sample 1 [67] [117] [116]),
    temps := [] }

/-- A system in which `unlink` fails. -/
def sys_unlink_fails : Sys :=
  { mkstemp_ok := true, fputs_ok := fun _ => true, rename_ok := true,
    unlink_ok := false, fopen_w_ok := true }

/-! ## The records of a listing -/

/-- The strings the loop of `mympd_api_bookmark_list` appends to the buffer by
`sdscat(buffer, line)`, in order, for the lines `lines` read when
`entity_count` is `c`: the counter and the test are those of `list_step`. -/
def list_records_from (offset max_elements_per_page : Nat) : Nat → List Bytes → List Bytes
  | _, [] => []
  | c, line :: rest =>
    (if (c + 1) % 2 ^ 32 > offset
          ∧ (c + 1) % 2 ^ 32 ≤ (offset + max_elements_per_page) % 2 ^ 32 then
        [cstr (strtok_r line)]
      else [])
      ++ list_records_from offset max_elements_per_page ((c + 1) % 2 ^ 32) rest

/-- The records returned by a listing of the store. -/
def list_records (fs : FS) (offset max_elements_per_page : Nat) : List Bytes :=
  match fs.store with
  | some content => list_records_from offset max_elements_per_page 0 (getlines content)
  | none => []

/-- The buffer after appending `recs` the way the loop does, the value of
`entities_returned` being `r`: a comma comes first when `r` is not 0, and `r`
is incremented modulo `2 ^ 32`. -/
def append_wrap : Nat → Bytes → List Bytes → Bytes
  | _, buf, [] => buf
  | r, buf, x :: xs =>
    append_wrap ((r + 1) % 2 ^ 32) ((if r ≠ 0 then buf ++ [44] else buf) ++ x) xs

/-- The lines "a", "b", then `n` lines "x", then "c", "d". -/
def lines_wrap (n : Nat) : List Bytes :=
  [[97, 10], [98, 10]] ++ (List.replicate n [120, 10] ++ [[99, 10], [100, 10]])

/-- A store file with the lines `lines_wrap n`. -/
def store_wrap (n : Nat) : FS :=
  { store := some (lines_wrap n).flatten, temps := [] }

/-! ## Write attempts when writes may fail -/

/-- Tells whether one of the writes of the new record (`none`) among the write
attempts `es`, made by the `fputs` calls number `n`, `n + 1`, ..., succeeds. -/
def new_written (sys : Sys) : Nat → List (Option Bookmark) → Bool
  | _, [] => false
  | n, e :: es => (e.isNone && sys.fputs_ok n) || new_written sys (n + 1) es

/-- The write attempts of the whole call, in order, whatever their outcome:
those of the loop, which do not depend on the outcome of earlier writes, then
the new record once more when `name` is not NULL and none of its writes in the
loop succeeded (`inserted` still false). -/
def update_attempts (sys : Sys) (id : Int) (name : Option CStr) (olds : List Bookmark) :
    List (Option Bookmark) :=
  loop_entries id name olds
    ++ (if name.isSome && !(new_written sys 0 (loop_entries id name olds)) then [none] else [])

/-- The state reached from `s` by the write attempts `recs`, `ins` telling
whether a write of the new record among them succeeded. -/
def after_attempts (x : Helpers) (sys : Sys) (s : UpdState) (recs : List Bookmark)
    (ins : Bool) : UpdState :=
  { line_nr := s.line_nr + recs.length,
    inserted := s.inserted || ins,
    fo := { data := s.fo.data ++ render_sys x sys s.fo.calls recs,
            calls := s.fo.calls + recs.length } }

/-! # Theorems -/

theorem render_append (x : Helpers) (a b : List Bookmark) (n : Int) :
    render x n (a ++ b) = render x n a ++ render x (n + a.length) b := by
  induction a generalizing n with
  | nil => simp [render]
  | cons r rs ih =>
    have e : n + (((r :: rs).length : Nat) : Int) = (n + 1) + (rs.length : Int) := by
      simp only [List.length_cons]
      push_cast
      ring
    rw [e, List.cons_append, render, render, ih (n + 1), List.append_assoc]

theorem render_enumFrom (x : Helpers) (recs : List Bookmark) (k : Nat) :
    ((recs.enumFrom k).map fun p =>
        bookmarks_line x ((p.1 : Int) + 1) p.2.name p.2.uri p.2.type).flatten
      = render x k recs := by
  induction recs generalizing k with
  | nil => simp [render]
  | cons r rs ih =>
    simp only [List.enumFrom_cons, List.map_cons, List.flatten_cons, render, ih (k + 1)]
    congr 2

theorem store_image_eq_render (x : Helpers) (recs : List Bookmark) :
    store_image x recs = render x 0 recs := by
  have h := render_enumFrom x recs 0
  simpa [store_image, List.enum] using h

theorem write_bookmarks_line_ok (x : Helpers) (sys : Sys) (hw : sys.writes_ok)
    (fp : OStream) (i : Int) (n u t : CStr) :
    write_bookmarks_line x sys fp i n u t
      = (true, { data := fp.data ++ bookmarks_line x i n u t, calls := fp.calls + 1 }) := by
  simp [write_bookmarks_line, fputs, hw fp.calls]

theorem update_step_ok (x : Helpers) (sys : Sys) (hw : sys.writes_ok) (id : Int)
    (name : Option CStr) (uri type : CStr) (s : UpdState) (line : Bytes) :
    update_step x sys id name uri type s line
      = after_writes x s
          ((loop_entries id name (x.json_scanf line).toList).map fun e =>
            e.getD (new_record id name uri type))
          ((x.json_scanf line).toList.any (name_before name)) := by
  unfold update_step
  cases hj : x.json_scanf line with
  | none => simp [after_writes, loop_entries, render]
  | some l =>
    cases name with
    | none =>
      by_cases hid : l.id = id
      · simp [after_writes, loop_entries, render, name_before, hid]
      · simp [after_writes, loop_entries, render, name_before, hid,
          write_bookmarks_line_ok x sys hw]
    | some nm =>
      by_cases hlt : strcmp nm l.name < 0 <;> by_cases hid : l.id = id <;>
        simp [after_writes, loop_entries, render, name_before, hid, hlt, new_record,
          write_bookmarks_line_ok x sys hw, add_assoc]

theorem loop_entries_append (id : Int) (name : Option CStr) (a b : List Bookmark) :
    loop_entries id name (a ++ b) = loop_entries id name a ++ loop_entries id name b := by
  induction a with
  | nil => simp [loop_entries]
  | cons l ls ih => simp [loop_entries, ih]

theorem after_writes_twice (x : Helpers) (s : UpdState) (r1 r2 : List Bookmark)
    (i1 i2 : Bool) :
    after_writes x (after_writes x s r1 i1) r2 i2 = after_writes x s (r1 ++ r2) (i1 || i2) := by
  simp [after_writes, render_append, add_assoc, Bool.or_assoc]

theorem update_loop_ok (x : Helpers) (sys : Sys) (hw : sys.writes_ok) (id : Int)
    (name : Option CStr) (uri type : CStr) (lines : List Bytes) (s : UpdState) :
    lines.foldl (update_step x sys id name uri type) s
      = after_writes x s
          ((loop_entries id name (lines.filterMap x.json_scanf)).map fun e =>
            e.getD (new_record id name uri type))
          ((lines.filterMap x.json_scanf).any (name_before name)) := by
  induction lines generalizing s with
  | nil => simp [after_writes, loop_entries, render]
  | cons line rest ih =>
    rw [List.foldl_cons, update_step_ok x sys hw, ih, after_writes_twice]
    cases hj : x.json_scanf line with
    | none => simp [List.filterMap_cons, hj, loop_entries]
    | some l =>
      have e : List.filterMap x.json_scanf (line :: rest)
          = [l] ++ List.filterMap x.json_scanf rest := by
        simp [List.filterMap_cons, hj]
      rw [e, loop_entries_append]
      simp

theorem update_finish_ok (x : Helpers) (sys : Sys) (hw : sys.writes_ok) (id : Int)
    (name : Option CStr) (uri type : CStr) (olds : List Bookmark) :
    (update_finish x sys name uri type
        (after_writes x { line_nr := 0, inserted := false, fo := { data := [], calls := 0 } }
          ((loop_entries id name olds).map fun e => e.getD (new_record id name uri type))
          (olds.any (name_before name)))).fo.data
      = store_image x (update_records id name uri type olds) := by
  rw [store_image_eq_render]
  cases name with
  | none => simp [update_finish, after_writes, update_records, update_entries]
  | some nm =>
    by_cases hany : olds.any (name_before (some nm)) = true
    · simp [update_finish, after_writes, update_records, update_entries, hany]
    · simp only [Bool.not_eq_true] at hany
      simp [update_finish, after_writes, update_records, update_entries, hany,
        write_bookmarks_line_ok x sys hw, render_append, render, new_record]

theorem update_stream_ok (x : Helpers) (sys : Sys) (hw : sys.writes_ok) (fs : FS)
    (id : Int) (name : Option CStr) (uri type : CStr) :
    (update_stream x sys fs id name uri type).fo.data
      = store_image x (update_records id name uri type (old_records x fs)) := by
  unfold update_stream old_records
  cases hs : fs.store with
  | none =>
    have h := update_finish_ok x sys hw id name uri type []
    simpa [after_writes, loop_entries, render] using h
  | some content =>
    simp only [update_loop_ok x sys hw]
    exact update_finish_ok x sys hw id name uri type _

/-- With the temporary file created, every write and the rename succeeding,
the call returns true and the store holds the lines of `update_records`,
numbered from 1. -/
theorem update_ok (x : Helpers) (sys : Sys) (hm : sys.mkstemp_ok = true)
    (hw : sys.writes_ok) (hr : sys.rename_ok = true) (fs : FS) (id : Int)
    (name : Option CStr) (uri type : CStr) :
    mympd_api_bookmark_update x sys fs id name uri type
      = (true, { store := some (store_image x
                    (update_records id name uri type (old_records x fs))),
                 temps := fs.temps }) := by
  simp [mympd_api_bookmark_update, hm, hr, update_stream_ok x sys hw]

theorem update_entries_olds (id : Int) (name : Option CStr) (olds : List Bookmark) :
    (update_entries id name olds).filterMap (fun e => e)
      = olds.filter (fun l => decide (l.id ≠ id)) := by
  have h : (loop_entries id name olds).filterMap (fun e => e)
      = olds.filter (fun l => decide (l.id ≠ id)) := by
    induction olds with
    | nil => simp [loop_entries]
    | cons l ls ih =>
      by_cases hb : name_before name l = true <;> by_cases hid : l.id = id <;>
        simp [loop_entries, hb, hid, ih, List.filterMap_append, List.filter_cons]
  unfold update_entries
  rw [List.filterMap_append, h]
  split <;> simp

theorem update_records_delete (id : Int) (uri type : CStr) (olds : List Bookmark) :
    update_records id none uri type olds = olds.filter (fun l => decide (l.id ≠ id)) := by
  have h : loop_entries id none olds
      = (olds.filter (fun l => decide (l.id ≠ id))).map some := by
    induction olds with
    | nil => simp [loop_entries]
    | cons l ls ih =>
      by_cases hid : l.id = id <;>
        simp [loop_entries, name_before, hid, ih, List.filter_cons]
  have e : ((fun e : Option Bookmark => e.getD (new_record id none uri type)) ∘ some)
      = fun l => l := by
    funext l
    simp
  simp [update_records, update_entries, h, e]

theorem filterMap_of_map_some {α β : Type} (f : α → Option β) (l : List α) (r : List β)
    (h : l.map f = r.map some) : l.filterMap f = r := by
  induction l generalizing r with
  | nil =>
    cases r with
    | nil => rfl
    | cons b bs => simp at h
  | cons a as ih =>
    cases r with
    | nil => simp at h
    | cons b bs =>
      simp only [List.map_cons, List.cons.injEq] at h
      simp [List.filterMap_cons, h.1, ih bs h.2]

theorem filter_all_ne (k : Int) (recs : List Bookmark) (h : ∀ l ∈ recs, l.id ≠ k) :
    recs.filter (fun l => decide (l.id ≠ k)) = recs := by
  rw [List.filter_eq_self]
  intro l hl
  simpa using h l hl

theorem filter_position (recs : List Bookmark) (base k : Nat)
    (hid : ∀ i (h : i < recs.length), recs[i].id = (base : Int) + (i : Int) + 1)
    (hk1 : base + 1 ≤ k) (hk2 : k ≤ base + recs.length) :
    recs.filter (fun l => decide (l.id ≠ (k : Int))) = recs.eraseIdx (k - 1 - base) := by
  induction recs generalizing base with
  | nil => simp at hk2; omega
  | cons r rs ih =>
    have hr : r.id = (base : Int) + 1 := by
      have := hid 0 (by simp)
      simpa using this
    have hrs : ∀ i (h : i < rs.length), rs[i].id = ((base + 1 : Nat) : Int) + (i : Int) + 1 := by
      intro i h
      have := hid (i + 1) (by simpa using h)
      simp only [List.getElem_cons_succ] at this
      rw [this]
      push_cast
      ring
    by_cases hk : k = base + 1
    · subst hk
      have hne : ∀ l ∈ rs, l.id ≠ ((base + 1 : Nat) : Int) := by
        intro l hl
        obtain ⟨i, hi, rfl⟩ := List.getElem_of_mem hl
        rw [hrs i hi]
        push_cast
        omega
      have e : base + 1 - 1 - base = 0 := by omega
      rw [e, List.eraseIdx_cons_zero, List.filter_cons]
      simp only [hr]
      push_cast
      simp only [ne_eq, not_true_eq_false, decide_False, Bool.false_eq_true, if_false]
      have := filter_all_ne _ rs hne
      push_cast at this
      exact this
    · have e : k - 1 - base = (k - 1 - (base + 1)) + 1 := by omega
      rw [e, List.eraseIdx_cons_succ, List.filter_cons]
      have hne : r.id ≠ (k : Int) := by
        rw [hr]
        omega
      simp only [ne_eq, hne, not_false_eq_true, decide_True, if_true]
      rw [ih (base + 1) hrs (by omega) (by simp only [List.length_cons] at hk2; omega)]

/-- When the call returns true, the temporary file was created and renamed. -/
theorem update_true_iff (x : Helpers) (sys : Sys) (fs : FS) (id : Int)
    (name : Option CStr) (uri type : CStr) :
    (mympd_api_bookmark_update x sys fs id name uri type).1 = true
      ↔ sys.mkstemp_ok = true ∧ sys.rename_ok = true := by
  unfold mympd_api_bookmark_update
  cases hm : sys.mkstemp_ok <;> cases hr : sys.rename_ok <;> simp

theorem render_sys_append (x : Helpers) (sys : Sys) (a b : List Bookmark) (n : Nat) :
    render_sys x sys n (a ++ b) = render_sys x sys n a ++ render_sys x sys (n + a.length) b := by
  induction a generalizing n with
  | nil => simp [render_sys]
  | cons r rs ih =>
    have e : n + (r :: rs).length = n + 1 + rs.length := by
      simp only [List.length_cons]
      omega
    rw [e, List.cons_append, render_sys, render_sys, ih (n + 1), List.append_assoc]

theorem write_bookmarks_line_attempt (x : Helpers) (sys : Sys) (fp : OStream) (n u t : CStr) :
    (write_bookmarks_line x sys fp ((fp.calls : Int) + 1) n u t).2
      = { data := fp.data ++ render_sys x sys fp.calls [{ id := 0, name := n, uri := u, type := t }],
          calls := fp.calls + 1 } := by
  cases h : sys.fputs_ok fp.calls <;> simp [write_bookmarks_line, fputs, render_sys, h]

theorem update_step_attempts (x : Helpers) (sys : Sys) (id : Int) (name : Option CStr)
    (uri type : CStr) (s : UpdState) (line : Bytes) (hs : s.line_nr = (s.fo.calls : Int)) :
    ∃ recs, Attempts x sys s (update_step x sys id name uri type s line) recs := by
  unfold update_step
  cases hj : x.json_scanf line with
  | none => exact ⟨[], by simp [Attempts, render_sys]⟩
  | some l =>
    cases name with
    | none =>
      by_cases hid : l.id = id
      · exact ⟨[], by simp [Attempts, render_sys, hid]⟩
      · refine ⟨[{ id := 0, name := l.name, uri := l.uri, type := l.type }], ?_⟩
        simp [Attempts, hid, hs, write_bookmarks_line_attempt]
    | some nm =>
      by_cases hlt : strcmp nm l.name < 0 <;> by_cases hid : l.id = id
      · refine ⟨[{ id := 0, name := nm, uri := uri, type := type }], ?_⟩
        simp [Attempts, hid, hlt, hs, write_bookmarks_line_attempt]
      · refine ⟨[{ id := 0, name := nm, uri := uri, type := type },
                 { id := 0, name := l.name, uri := l.uri, type := l.type }], ?_⟩
        cases h1 : sys.fputs_ok s.fo.calls <;> cases h2 : sys.fputs_ok (s.fo.calls + 1) <;>
          simp [Attempts, hid, hlt, hs, write_bookmarks_line, fputs, render_sys, h1, h2,
            add_assoc]
      · exact ⟨[], by simp [Attempts, render_sys, hid, hlt]⟩
      · refine ⟨[{ id := 0, name := l.name, uri := l.uri, type := l.type }], ?_⟩
        simp [Attempts, hid, hlt, hs, write_bookmarks_line_attempt]

theorem Attempts.trans {x : Helpers} {sys : Sys} {s t u : UpdState} {a b : List Bookmark}
    (h1 : Attempts x sys s t a) (h2 : Attempts x sys t u b) :
    Attempts x sys s u (a ++ b) := by
  obtain ⟨h1a, h1b, h1c⟩ := h1
  obtain ⟨h2a, h2b, h2c⟩ := h2
  refine ⟨?_, ?_, ?_⟩
  · rw [h2a, h1a]
    simp only [List.length_append]
    push_cast
    ring
  · rw [h2b, h1b]
    simp only [List.length_append]
    omega
  · rw [h2c, h1c, h1b, render_sys_append, List.append_assoc]

theorem Attempts.line_nr {x : Helpers} {sys : Sys} {s t : UpdState} {a : List Bookmark}
    (h : Attempts x sys s t a) (hs : s.line_nr = (s.fo.calls : Int)) :
    t.line_nr = (t.fo.calls : Int) := by
  rw [h.1, h.2.1, hs]
  push_cast
  ring

theorem update_loop_attempts (x : Helpers) (sys : Sys) (id : Int) (name : Option CStr)
    (uri type : CStr) (lines : List Bytes) (s : UpdState)
    (hs : s.line_nr = (s.fo.calls : Int)) :
    ∃ recs, Attempts x sys s (lines.foldl (update_step x sys id name uri type) s) recs := by
  induction lines generalizing s with
  | nil => exact ⟨[], by simp [Attempts, render_sys]⟩
  | cons line rest ih =>
    obtain ⟨a, ha⟩ := update_step_attempts x sys id name uri type s line hs
    obtain ⟨b, hb⟩ := ih _ (ha.line_nr hs)
    exact ⟨a ++ b, by simpa [List.foldl_cons] using ha.trans hb⟩

theorem update_finish_attempts (x : Helpers) (sys : Sys) (name : Option CStr)
    (uri type : CStr) (s : UpdState) (hs : s.line_nr = (s.fo.calls : Int)) :
    ∃ recs, Attempts x sys s (update_finish x sys name uri type s) recs := by
  unfold update_finish
  cases name with
  | none => exact ⟨[], by simp [Attempts, render_sys]⟩
  | some nm =>
    by_cases hi : s.inserted = false
    · refine ⟨[{ id := 0, name := nm, uri := uri, type := type }], ?_⟩
      simp [Attempts, hi, hs, write_bookmarks_line_attempt]
    · exact ⟨[], by simp [Attempts, render_sys, hi]⟩

theorem update_stream_attempts (x : Helpers) (sys : Sys) (fs : FS) (id : Int)
    (name : Option CStr) (uri type : CStr) :
    ∃ recs, (update_stream x sys fs id name uri type).fo.data = render_sys x sys 0 recs := by
  have key : ∀ lines : List Bytes, ∃ recs,
      (update_finish x sys name uri type
        (lines.foldl (update_step x sys id name uri type)
          { line_nr := 0, inserted := false, fo := { data := [], calls := 0 } })).fo.data
        = render_sys x sys 0 recs := by
    intro lines
    obtain ⟨a, ha⟩ := update_loop_attempts x sys id name uri type lines
      { line_nr := 0, inserted := false, fo := { data := [], calls := 0 } } (by simp)
    obtain ⟨b, hb⟩ := update_finish_attempts x sys name uri type _ (ha.line_nr (by simp))
    exact ⟨a ++ b, by simpa using (ha.trans hb).2.2⟩
  unfold update_stream
  cases hst : fs.store with
  | none => simpa using key []
  | some content => simpa using key (getlines content)

/-! ## Lemmas on listing -/

theorem list_step_count (offset p : Nat) (s : ListState) (line : Bytes) :
    (list_step offset p s line).entity_count = (s.entity_count + 1) % 2 ^ 32 := by
  by_cases h : (s.entity_count + 1) % 2 ^ 32 > offset
      ∧ (s.entity_count + 1) % 2 ^ 32 ≤ (offset + p) % 2 ^ 32
  · simp only [list_step, h, and_self, if_true]
  · simp only [list_step, h, if_false]

/-- The counter of lines wraps at `2 ^ 32`. -/
theorem list_loop_count (offset p : Nat) (lines : List Bytes) (s : ListState)
    (hs : s.entity_count < 2 ^ 32) :
    (lines.foldl (list_step offset p) s).entity_count
      = (s.entity_count + lines.length) % 2 ^ 32 := by
  induction lines generalizing s with
  | nil =>
    simp only [List.foldl_nil, List.length_nil, Nat.add_zero]
    exact (Nat.mod_eq_of_lt hs).symm
  | cons l ls ih =>
    rw [List.foldl_cons, ih _ (by rw [list_step_count]; exact Nat.mod_lt _ (by norm_num)),
      list_step_count, List.length_cons, Nat.mod_add_mod]
    congr 1
    omega

theorem page_from_cons (c : Nat) (l : Bytes) (ls : List Bytes) (offset p : Nat) :
    page_from c (l :: ls) offset p
      = if offset < c + 1 ∧ c + 1 ≤ offset + p then l :: page_from (c + 1) ls offset p
        else page_from (c + 1) ls offset p := by
  unfold page_from
  rw [List.enumFrom_cons, List.filter_cons]
  by_cases h : offset < c + 1 ∧ c + 1 ≤ offset + p
  · simp [h]
  · simp only [h, decide_False, Bool.false_eq_true, if_false]

theorem page_from_length_le (c : Nat) (lines : List Bytes) (offset p : Nat) :
    (page_from c lines offset p).length ≤ lines.length := by
  induction lines generalizing c with
  | nil => simp [page_from]
  | cons l ls ih =>
    rw [page_from_cons]
    have := ih (c + 1)
    split <;> simp only [List.length_cons] <;> omega

theorem page_from_eq_take_drop (c : Nat) (lines : List Bytes) (offset p : Nat) :
    page_from c lines offset p
      = ((lines.drop (offset - c)).take (offset + p - max c offset)) := by
  induction lines generalizing c with
  | nil => simp [page_from]
  | cons l ls ih =>
    rw [page_from_cons, ih (c + 1)]
    by_cases h1 : c < offset
    · have e1 : offset - c = (offset - (c + 1)) + 1 := by omega
      have e2 : max c offset = offset := by omega
      have e3 : max (c + 1) offset = offset := by omega
      have h : ¬ (offset < c + 1 ∧ c + 1 ≤ offset + p) := by omega
      rw [if_neg h, e1, List.drop_succ_cons, e2, e3]
    · have e1 : offset - c = 0 := by omega
      have e1b : offset - (c + 1) = 0 := by omega
      have e2 : max c offset = c := by omega
      have e3 : max (c + 1) offset = c + 1 := by omega
      rw [e1, e1b, e2, e3, List.drop_zero, List.drop_zero]
      by_cases h2 : c + 1 ≤ offset + p
      · have h : offset < c + 1 ∧ c + 1 ≤ offset + p := by omega
        have e4 : offset + p - c = (offset + p - (c + 1)) + 1 := by omega
        rw [if_pos h, e4, List.take_succ_cons]
      · have h : ¬ (offset < c + 1 ∧ c + 1 ≤ offset + p) := by omega
        have e4 : offset + p - c = 0 := by omega
        have e5 : offset + p - (c + 1) = 0 := by omega
        rw [if_neg h, e4, e5, List.take_zero, List.take_zero]

theorem page_length (lines : List Bytes) (offset p : Nat) :
    (page lines offset p).length = min p (lines.length - offset) := by
  unfold page
  rw [page_from_eq_take_drop]
  simp

/-- Without wrap-around the loop counts the lines and appends the page. -/
theorem list_loop_nowrap (offset p : Nat) (hsum : offset + p < 2 ^ 32) (lines : List Bytes)
    (s : ListState) (hc : s.entity_count + lines.length < 2 ^ 32)
    (hr : s.entities_returned ≤ s.entity_count) :
    lines.foldl (list_step offset p) s
      = { entity_count := s.entity_count + lines.length,
          entities_returned := s.entities_returned
            + (page_from s.entity_count lines offset p).length,
          buffer := append_records s.entities_returned s.buffer
            ((page_from s.entity_count lines offset p).map fun l => cstr (strtok_r l)) } := by
  induction lines generalizing s with
  | nil => simp [page_from, append_records]
  | cons l ls ih =>
    simp only [List.length_cons] at hc
    have m1 : (s.entity_count + 1) % 2 ^ 32 = s.entity_count + 1 :=
      Nat.mod_eq_of_lt (by omega)
    have m2 : (offset + p) % 2 ^ 32 = offset + p := Nat.mod_eq_of_lt hsum
    have m3 : (s.entities_returned + 1) % 2 ^ 32 = s.entities_returned + 1 :=
      Nat.mod_eq_of_lt (by omega)
    rw [List.foldl_cons, page_from_cons]
    by_cases h : offset < s.entity_count + 1 ∧ s.entity_count + 1 ≤ offset + p
    · have hstep : list_step offset p s l
          = { entity_count := s.entity_count + 1,
              entities_returned := s.entities_returned + 1,
              buffer := (if s.entities_returned ≠ 0 then s.buffer ++ [44] else s.buffer)
                ++ cstr (strtok_r l) } := by
        unfold list_step
        simp only [m1, m2, m3]
        rw [if_pos (by exact h)]
      rw [hstep, ih _ (by simp only; omega) (by simp only; omega), if_pos h]
      simp only [List.length_cons, List.map_cons, append_records]
      congr 1 <;> omega
    · have hstep : list_step offset p s l
          = { entity_count := s.entity_count + 1,
              entities_returned := s.entities_returned,
              buffer := s.buffer } := by
        unfold list_step
        simp only [m1, m2]
        rw [if_neg (by exact h)]
      rw [hstep, ih _ (by simp only; omega) (by simp only; omega), if_neg h]
      simp only [List.length_cons]
      congr 1
      omega

theorem append_records_pos (r : Nat) (hr : r ≠ 0) (buf : Bytes) (recs : List Bytes) :
    append_records r buf recs = buf ++ (recs.map fun x => [44] ++ x).flatten := by
  induction recs generalizing r buf with
  | nil => simp [append_records]
  | cons x xs ih =>
    rw [append_records, ih (r + 1) (by omega)]
    simp [hr]

theorem comma_separated_cons (x : Bytes) (xs : List Bytes) :
    comma_separated (x :: xs) = x ++ (xs.map fun y => [44] ++ y).flatten := by
  induction xs generalizing x with
  | nil => simp [comma_separated]
  | cons y ys ih =>
    rw [comma_separated, ih y]
    simp

theorem append_records_zero (recs : List Bytes) :
    append_records 0 [] recs = comma_separated recs := by
  cases recs with
  | nil => rfl
  | cons x xs =>
    rw [append_records, append_records_pos 1 (by omega), comma_separated_cons]
    simp

/-! ## Lemmas on lines -/

/-- In a line handed out by `getline` a newline can only be the last byte. -/
theorem getlinesAux_newline (content cur : Bytes) (hcur : 10 ∉ cur) :
    ∀ l ∈ getlinesAux cur content, 10 ∉ l.dropLast := by
  induction content generalizing cur with
  | nil =>
    intro l hl
    unfold getlinesAux at hl
    split at hl
    · simp at hl
    · simp only [List.mem_singleton] at hl
      subst hl
      intro h
      exact hcur (List.mem_reverse.mp (List.mem_of_mem_dropLast h))
  | cons b rest ih =>
    intro l hl
    unfold getlinesAux at hl
    split at hl
    · rcases List.mem_cons.mp hl with h | h
      · subst h
        rw [List.reverse_cons, List.dropLast_concat]
        intro h
        exact hcur (List.mem_reverse.mp h)
      · exact ih [] (by simp) l h
    · rename_i hb
      refine ih (b :: cur) ?_ l hl
      intro h
      rcases List.mem_cons.mp h with h | h
      · exact hb h.symm
      · exact hcur h

theorem getlines_newline (content : Bytes) :
    ∀ l ∈ getlines content, 10 ∉ l.dropLast :=
  getlinesAux_newline content [] (by simp)

theorem getlines_replicate (n : Nat) :
    getlines (List.replicate n 10) = List.replicate n [10] := by
  unfold getlines
  induction n with
  | zero => rfl
  | succ n ih =>
    rw [List.replicate_succ, List.replicate_succ, getlinesAux, if_pos rfl, ih]
    rfl

/-- The bytes of a buffer before its first NUL or newline. -/
theorem cstr_strtok_end (l : Bytes) :
    cstr (strtok_end l) = l.takeWhile fun b => decide (b ≠ 0) && decide (b ≠ 10) := by
  induction l with
  | nil => rfl
  | cons b rest ih =>
    by_cases h0 : b = 0
    · simp [strtok_end, cstr, h0]
    · by_cases h1 : b = 10
      · simp [strtok_end, cstr, h1]
      · simp [strtok_end, cstr, h0, h1, ih, List.takeWhile_cons]

theorem strip_newline_cstr (l : Bytes) (hl : 10 ∉ l.dropLast) :
    strip_newline (cstr l) = l.takeWhile fun b => decide (b ≠ 0) && decide (b ≠ 10) := by
  induction l with
  | nil => rfl
  | cons b rest ih =>
    by_cases h0 : b = 0
    · simp [strip_newline, cstr, h0]
    · by_cases h1 : b = 10
      · cases rest with
        | nil => simp [strip_newline, cstr, h1]
        | cons r rs => simp [h1] at hl
      · have hrest : 10 ∉ rest.dropLast := by
          cases rest with
          | nil => simp
          | cons r rs =>
            intro h
            exact hl (by rw [List.dropLast_cons₂]; exact List.mem_cons_of_mem _ h)
        have ih2 := ih hrest
        rw [cstr, if_neg h0, List.takeWhile_cons]
        simp only [ne_eq, h0, not_false_eq_true, decide_True, h1, Bool.and_self, if_true]
        rw [← ih2]
        cases hc : cstr rest with
        | nil =>
          have hb : ¬ (some b = some 10) := by simpa using h1
          simp [strip_newline, hb]
        | cons c cs =>
          simp only [strip_newline, List.getLast?_cons_cons, List.dropLast_cons₂]
          split <;> rfl

theorem strtok_r_eq_end (l : Bytes) (hl : 10 ∉ l.dropLast) (hne : l ≠ [10]) :
    strtok_r l = strtok_end l := by
  cases l with
  | nil => rfl
  | cons b rest =>
    by_cases h1 : b = 10
    · cases rest with
      | nil => simp [h1] at hne
      | cons r rs => simp [h1] at hl
    · simp [strtok_r, h1]

/-- What the loop appends for a line that is not the newline alone: the C
string of the line without its terminating newline. -/
theorem cstr_strtok_r (l : Bytes) (hl : 10 ∉ l.dropLast) (hne : l ≠ [10]) :
    cstr (strtok_r l) = strip_newline (cstr l) := by
  rw [strtok_r_eq_end l hl hne, cstr_strtok_end, strip_newline_cstr l hl]

theorem page_from_subset (c : Nat) (lines : List Bytes) (offset p : Nat) :
    ∀ l ∈ page_from c lines offset p, l ∈ lines := by
  induction lines generalizing c with
  | nil => simp [page_from]
  | cons x xs ih =>
    intro l hl
    rw [page_from_cons] at hl
    split at hl
    · rcases List.mem_cons.mp hl with h | h
      · exact h ▸ List.mem_cons_self _ _
      · exact List.mem_cons_of_mem _ (ih (c + 1) l h)
    · exact List.mem_cons_of_mem _ (ih (c + 1) l hl)

/-- The loop of `mympd_api_bookmark_list` run from its initial state, without
wrap-around. -/
theorem list_loop_start (offset p : Nat) (hsum : offset + p < 2 ^ 32) (lines : List Bytes)
    (hN : lines.length < 2 ^ 32) :
    lines.foldl (list_step offset p) { entity_count := 0, entities_returned := 0, buffer := [] }
      = { entity_count := lines.length,
          entities_returned := (page lines offset p).length,
          buffer := comma_separated ((page lines offset p).map fun l => cstr (strtok_r l)) } := by
  rw [list_loop_nowrap offset p hsum lines _ (by simpa using hN) (by simp)]
  simp only [Nat.zero_add, append_records_zero, page]

/-- The reported total is the number of lines modulo `2 ^ 32`. -/
theorem list_total (sys : Sys) (fs : FS) (content : Bytes) (offset p : Nat)
    (hs : fs.store = some content) :
    (mympd_api_bookmark_list sys fs offset p).1.map ListResult.totalEntities
      = some ((getlines content).length % 2 ^ 32) := by
  simp only [mympd_api_bookmark_list, hs, Option.map_some']
  rw [list_loop_count offset p _ _ (by norm_num)]
  simp

theorem uint_wrap : 4294967296 % 2 ^ 32 = 0 := by norm_num

theorem lines_of_newlines (n : Nat) : (getlines (List.replicate n 10)).length = n := by
  rw [getlines_replicate, List.length_replicate]

/-! ## Lemmas on write attempts -/

theorem new_written_append (sys : Sys) (a b : List (Option Bookmark)) (n : Nat) :
    new_written sys n (a ++ b) = (new_written sys n a || new_written sys (n + a.length) b) := by
  induction a generalizing n with
  | nil => simp [new_written]
  | cons e es ih =>
    have h : n + (e :: es).length = n + 1 + es.length := by
      simp only [List.length_cons]
      omega
    rw [List.cons_append, new_written, new_written, ih (n + 1), h, Bool.or_assoc]

theorem after_attempts_twice (x : Helpers) (sys : Sys) (s : UpdState) (r1 r2 : List Bookmark)
    (i1 i2 : Bool) :
    after_attempts x sys (after_attempts x sys s r1 i1) r2 i2
      = after_attempts x sys s (r1 ++ r2) (i1 || i2) := by
  simp [after_attempts, render_sys_append, add_assoc, Bool.or_assoc]

theorem after_attempts_line_nr (x : Helpers) (sys : Sys) (s : UpdState) (r : List Bookmark)
    (i : Bool) (hs : s.line_nr = (s.fo.calls : Int)) :
    (after_attempts x sys s r i).line_nr = ((after_attempts x sys s r i).fo.calls : Int) := by
  simp [after_attempts, hs]

/-- One iteration of the loop, whatever the outcome of its writes. -/
theorem update_step_sys (x : Helpers) (sys : Sys) (id : Int) (name : Option CStr)
    (uri type : CStr) (s : UpdState) (line : Bytes) (hs : s.line_nr = (s.fo.calls : Int)) :
    update_step x sys id name uri type s line
      = after_attempts x sys s
          ((loop_entries id name (x.json_scanf line).toList).map fun e =>
            e.getD (new_record id name uri type))
          (new_written sys s.fo.calls (loop_entries id name (x.json_scanf line).toList)) := by
  unfold update_step
  cases hj : x.json_scanf line with
  | none => simp [after_attempts, loop_entries, render_sys, new_written]
  | some l =>
    cases name with
    | none =>
      by_cases hid : l.id = id
      · simp [after_attempts, loop_entries, render_sys, new_written, name_before, hid]
      · cases h1 : sys.fputs_ok s.fo.calls <;>
          simp [after_attempts, loop_entries, render_sys, new_written, name_before, hid, hs,
            write_bookmarks_line, fputs, h1]
    | some nm =>
      by_cases hlt : strcmp nm l.name < 0 <;> by_cases hid : l.id = id
      · cases h1 : sys.fputs_ok s.fo.calls <;>
          simp [after_attempts, loop_entries, render_sys, new_written, name_before, hid, hlt,
            hs, write_bookmarks_line, fputs, h1, new_record]
      · cases h1 : sys.fputs_ok s.fo.calls <;> cases h2 : sys.fputs_ok (s.fo.calls + 1) <;>
          simp [after_attempts, loop_entries, render_sys, new_written, name_before, hid, hlt,
            hs, write_bookmarks_line, fputs, h1, h2, new_record, add_assoc]
      · simp [after_attempts, loop_entries, render_sys, new_written, name_before, hid, hlt]
      · cases h1 : sys.fputs_ok s.fo.calls <;>
          simp [after_attempts, loop_entries, render_sys, new_written, name_before, hid, hlt,
            hs, write_bookmarks_line, fputs, h1]

/-- The loop, whatever the outcome of its writes. -/
theorem update_loop_sys (x : Helpers) (sys : Sys) (id : Int) (name : Option CStr)
    (uri type : CStr) (lines : List Bytes) (s : UpdState)
    (hs : s.line_nr = (s.fo.calls : Int)) :
    lines.foldl (update_step x sys id name uri type) s
      = after_attempts x sys s
          ((loop_entries id name (lines.filterMap x.json_scanf)).map fun e =>
            e.getD (new_record id name uri type))
          (new_written sys s.fo.calls (loop_entries id name (lines.filterMap x.json_scanf))) := by
  induction lines generalizing s with
  | nil => simp [after_attempts, loop_entries, render_sys, new_written]
  | cons line rest ih =>
    rw [List.foldl_cons, update_step_sys x sys id name uri type s line hs,
      ih _ (after_attempts_line_nr x sys s _ _ hs), after_attempts_twice]
    cases hj : x.json_scanf line with
    | none => simp [List.filterMap_cons, hj, loop_entries, new_written, after_attempts]
    | some l =>
      have e : List.filterMap x.json_scanf (line :: rest)
          = [l] ++ List.filterMap x.json_scanf rest := by
        simp [List.filterMap_cons, hj]
      rw [e, loop_entries_append, new_written_append]
      simp [after_attempts]

/-- The whole stream, whatever the outcome of its writes. -/
theorem update_stream_sys (x : Helpers) (sys : Sys) (fs : FS) (id : Int)
    (name : Option CStr) (uri type : CStr) :
    (update_stream x sys fs id name uri type).fo
      = { data := render_sys x sys 0
            ((update_attempts sys id name (old_records x fs)).map fun e =>
              e.getD (new_record id name uri type)),
          calls := (update_attempts sys id name (old_records x fs)).length } := by
  have key : ∀ lines : List Bytes,
      (update_finish x sys name uri type
        (lines.foldl (update_step x sys id name uri type)
          { line_nr := 0, inserted := false, fo := { data := [], calls := 0 } })).fo
        = { data := render_sys x sys 0
              ((update_attempts sys id name (lines.filterMap x.json_scanf)).map fun e =>
                e.getD (new_record id name uri type)),
            calls := (update_attempts sys id name (lines.filterMap x.json_scanf)).length } := by
    intro lines
    rw [update_loop_sys x sys id name uri type lines _ (by simp)]
    cases name with
    | none => simp [update_finish, after_attempts, update_attempts]
    | some nm =>
      cases hw : new_written sys 0 (loop_entries id (some nm) (lines.filterMap x.json_scanf))
      · cases h1 : sys.fputs_ok
            (loop_entries id (some nm) (lines.filterMap x.json_scanf)).length <;>
          simp [update_finish, after_attempts, update_attempts, hw, write_bookmarks_line,
            fputs, render_sys_append, render_sys, new_record, h1]
      · simp [update_finish, after_attempts, update_attempts, hw]
  unfold update_stream old_records
  cases hst : fs.store with
  | none => simpa using key []
  | some content => simpa using key (getlines content)

theorem update_attempts_olds (sys : Sys) (id : Int) (name : Option CStr)
    (olds : List Bookmark) :
    (update_attempts sys id name olds).filterMap (fun e => e)
      = olds.filter (fun l => decide (l.id ≠ id)) := by
  have h : (loop_entries id name olds).filterMap (fun e => e)
      = olds.filter (fun l => decide (l.id ≠ id)) := by
    induction olds with
    | nil => simp [loop_entries]
    | cons l ls ih =>
      by_cases hb : name_before name l = true <;> by_cases hid : l.id = id <;>
        simp [loop_entries, hb, hid, ih, List.filterMap_append, List.filter_cons]
  unfold update_attempts
  rw [List.filterMap_append, h]
  split <;> simp

/-! # The claims -/

set_option maxRecDepth 100000

/-- C1, the code at a failing input: the store holds the records A, E, F with
ids 1, 2, 3 and every line scans; upserting the name C with id 0 (every write
and the rename succeeding) writes the five lines A, C, E, C, F, the new record
before E and again before F, and not the four lines A, C, E, F. -/
theorem upsert_writes_new_record_twice :
    (getlines (store_image sample [bm 1 65, bm 2 69, bm 3 70])).map sample.json_scanf
        = [bm 1 65, bm 2 69, bm 3 70].map some
      ∧ mympd_api_bookmark_update sample sys_ok store_AEF 0 (some [67]) [117] [116]
        = (true, { store := some (store_image sample
                      [bm 1 65, bm 2 67, bm 3 69, bm 4 67, bm 5 70]),
                   temps := [] })
      ∧ store_image sample [bm 1 65, bm 2 67, bm 3 69, bm 4 67, bm 5 70]
        ≠ store_image sample [bm 1 65, bm 2 67, bm 3 69, bm 4 70] := by
  decide

/-- C2: on a store of N scanned records whose ids are their 1-based positions,
a delete (`name = NULL`) with `id = k`, `1 ≤ k ≤ N`, returns true and leaves
exactly the records other than the one at position `k`, in their order,
written with ids 1 to N - 1. -/
theorem delete_removes_position (x : Helpers) (sys : Sys) (fs : FS) (content : Bytes)
    (recs : List Bookmark) (k : Nat) (uri type : CStr)
    (hs : fs.store = some content)
    (hdec : (getlines content).map x.json_scanf = recs.map some)
    (hid : ∀ i (h : i < recs.length), recs[i].id = (i : Int) + 1)
    (hk1 : 1 ≤ k) (hk2 : k ≤ recs.length)
    (hm : sys.mkstemp_ok = true) (hw : sys.writes_ok) (hr : sys.rename_ok = true) :
    mympd_api_bookmark_update x sys fs (k : Int) none uri type
      = (true, { store := some (store_image x (recs.eraseIdx (k - 1))), temps := fs.temps })
      ∧ (recs.eraseIdx (k - 1)).length = recs.length - 1 := by
  have hold : old_records x fs = recs := by
    simp only [old_records, hs]
    exact filterMap_of_map_some _ _ _ hdec
  have hpos := filter_position recs 0 k
    (by intro i h; rw [hid i h]; push_cast; ring) (by omega) (by omega)
  constructor
  · rw [update_ok x sys hm hw hr, hold, update_records_delete, hpos]
    simp
  · rw [List.length_eraseIdx]
    split
    · rfl
    · omega

/-- C2 at the store A, E, F: deleting id 2 leaves A and F with ids 1 and 2. -/
theorem delete_removes_position_witness :
    mympd_api_bookmark_update sample sys_ok store_AEF ((2 : Nat) : Int) none [] []
        = (true, { store := some (store_image sample
                      ([bm 1 65, bm 2 69, bm 3 70].eraseIdx (2 - 1))),
                   temps := store_AEF.temps })
      ∧ ([bm 1 65, bm 2 69, bm 3 70].eraseIdx (2 - 1)).length
        = [bm 1 65, bm 2 69, bm 3 70].length - 1 :=
  delete_removes_position sample sys_ok store_AEF
    (store_image sample [bm 1 65, bm 2 69, bm 3 70]) [bm 1 65, bm 2 69, bm 3 70] 2 [] []
    rfl (by decide) (by decide) (by decide) (by decide) rfl (fun _ => rfl) rfl

/-- C3 as stated fails: on the store A, E, F, deleting id 2 while the first
write to the temporary file fails, the call returns true and the new store is
the single line of F, carrying id 2: its first line does not carry id 1. -/
theorem failed_write_leaves_id_gap :
    sys_first_write_fails.fputs_ok 0 = false
      ∧ (mympd_api_bookmark_update sample sys_first_write_fails store_AEF 2 none [] []).1 = true
      ∧ (mympd_api_bookmark_update sample sys_first_write_fails store_AEF 2 none [] []).2.store
          = some (bookmarks_line sample 2 [70] [117] [116])
      ∧ ((mympd_api_bookmark_update sample sys_first_write_fails store_AEF 2 none
            [] []).2.store.map
          fun c => ((getlines c).filterMap sample.json_scanf).map Bookmark.id) = some [2] := by
  decide

/-- C3 amended: whatever the store holds (lines that do not scan, any stored
ids, or no file), whatever `id` and the optional new record, when every write
succeeds and the call returns true the new store is the sequence of lines of
some records, the line in 1-based position `i` carrying id `i`. -/
theorem update_ids_are_positions (x : Helpers) (sys : Sys) (fs : FS) (id : Int)
    (name : Option CStr) (uri type : CStr) (hw : sys.writes_ok)
    (hok : (mympd_api_bookmark_update x sys fs id name uri type).1 = true) :
    ∃ recs : List Bookmark,
      (mympd_api_bookmark_update x sys fs id name uri type).2.store
        = some ((recs.enum.map fun p =>
            bookmarks_line x ((p.1 : Int) + 1) p.2.name p.2.uri p.2.type).flatten) := by
  obtain ⟨hm, hr⟩ := (update_true_iff x sys fs id name uri type).mp hok
  refine ⟨update_records id name uri type (old_records x fs), ?_⟩
  rw [update_ok x sys hm hw hr]
  rfl

/-- C3 amended, at the store "garbage", Z (stored id 7), upserting A with id 0. -/
theorem update_ids_are_positions_witness :
    ∃ recs : List Bookmark,
      (mympd_api_bookmark_update sample sys_ok store_corrupt 0 (some [65]) [117] [116]).2.store
        = some ((recs.enum.map fun p =>
            bookmarks_line sample ((p.1 : Int) + 1) p.2.name p.2.uri p.2.type).flatten) :=
  update_ids_are_positions sample sys_ok store_corrupt 0 (some [65]) [117] [116]
    (fun _ => rfl) (by decide)

/-- C4, the code at a failing input: the store holds A, E, F in ascending
order; upserting the name B with id 3 writes the names A, B, E, B, which are
not ascending since E is greater than B. -/
theorem upsert_breaks_name_order :
    ((mympd_api_bookmark_update sample sys_ok store_AEF 3 (some [66]) [117] [116]).2.store.map
        fun c => ((getlines c).filterMap sample.json_scanf).map Bookmark.name)
        = some [[65], [66], [69], [66]]
      ∧ 0 < strcmp [69] [66] := by
  decide

/-- C5, the code at a failing input: the store holds the three records A, E, F
with ids 1, 2, 3; replacing id 1 by the name C writes the four lines
C, E, C, F. -/
theorem replace_changes_record_count :
    mympd_api_bookmark_update sample sys_ok store_AEF 1 (some [67]) [117] [116]
        = (true, { store := some (store_image sample
                      [bm 1 67, bm 2 69, bm 3 67, bm 4 70]),
                   temps := [] })
      ∧ (getlines (store_image sample [bm 1 67, bm 2 69, bm 3 67, bm 4 70])).length = 4
      ∧ (getlines (store_image sample [bm 1 65, bm 2 69, bm 3 70])).length = 3 := by
  decide

/-- The example of C6 evaluated: the store "garbage", Z becomes A, Z with ids
1 and 2. -/
theorem corrupt_store_example :
    mympd_api_bookmark_update sample sys_ok store_corrupt 0 (some [65]) [117] [116]
      = (true, { store := some (store_image sample [bm 1 65, bm 2 90]), temps := [] }) := by
  decide

/-- C7: when the call returns false (the temporary file could not be created,
or the rename failed), the store file is as before the call: present or absent
as before, with the same bytes. -/
theorem update_failure_keeps_store (x : Helpers) (sys : Sys) (fs : FS) (id : Int)
    (name : Option CStr) (uri type : CStr)
    (hfail : (mympd_api_bookmark_update x sys fs id name uri type).1 = false) :
    (mympd_api_bookmark_update x sys fs id name uri type).2.store = fs.store := by
  unfold mympd_api_bookmark_update at hfail ⊢
  cases hm : sys.mkstemp_ok <;> cases hr : sys.rename_ok <;> simp_all

/-- C7 at the store A, E, F with a failing rename. -/
theorem update_failure_keeps_store_witness :
    (mympd_api_bookmark_update sample sys_rename_fails store_AEF 2 (some [67]) [117] [116]).2.store
      = store_AEF.store :=
  update_failure_keeps_store sample sys_rename_fails store_AEF 2 (some [67]) [117] [116]
    (by decide)

/-- C8 as stated fails: on the store A, E, F, upserting C with id 0 while the
first write to the temporary file fails, the call returns true and the store
file is replaced (by the lines C, E, C, F with ids 2 to 5). -/
theorem write_failure_still_renames :
    sys_first_write_fails.fputs_ok 0 = false
      ∧ (mympd_api_bookmark_update sample sys_first_write_fails store_AEF 0
            (some [67]) [117] [116]).1 = true
      ∧ (mympd_api_bookmark_update sample sys_first_write_fails store_AEF 0
            (some [67]) [117] [116]).2.store
          = some (bookmarks_line sample 2 [67] [117] [116]
              ++ bookmarks_line sample 3 [69] [117] [116]
              ++ bookmarks_line sample 4 [67] [117] [116]
              ++ bookmarks_line sample 5 [70] [117] [116])
      ∧ (mympd_api_bookmark_update sample sys_first_write_fails store_AEF 0
            (some [67]) [117] [116]).2.store ≠ store_AEF.store := by
  decide

/-- C8 amended: a write failure does not abort the call. Whatever writes to
the temporary file fail, every later write attempt is still made: the attempts
of the call are those of `update_attempts`, which hold every scanned old line
whose id differs from `id`, in order, the new record before each old line with
a greater name, and the new record once more after the loop when none of its
writes in the loop succeeded. With the temporary file created and the rename
succeeding, the call returns true and the store file is replaced by the
temporary file; a successful write being taken to put its line in the file,
the new store holds exactly the lines of the attempts that succeeded, the
attempt number `k` (from 0) carrying id `k + 1`. -/
theorem write_failure_does_not_abort (x : Helpers) (sys : Sys) (fs : FS) (id : Int)
    (name : Option CStr) (uri type : CStr)
    (hm : sys.mkstemp_ok = true) (hr : sys.rename_ok = true) :
    mympd_api_bookmark_update x sys fs id name uri type
        = (true, { store := some (render_sys x sys 0
                      ((update_attempts sys id name (old_records x fs)).map fun e =>
                        e.getD (new_record id name uri type))),
                   temps := fs.temps })
      ∧ (update_stream x sys fs id name uri type).fo.calls
          = (update_attempts sys id name (old_records x fs)).length
      ∧ (update_attempts sys id name (old_records x fs)).filterMap (fun e => e)
          = (old_records x fs).filter (fun l => decide (l.id ≠ id)) := by
  refine ⟨?_, ?_, update_attempts_olds sys id name (old_records x fs)⟩
  · simp [mympd_api_bookmark_update, hm, hr, update_stream_sys x sys fs id name uri type]
  · rw [update_stream_sys x sys fs id name uri type]

/-- C8 amended, at the store A, E, F with a failing first write. -/
theorem write_failure_does_not_abort_witness :
    mympd_api_bookmark_update sample sys_first_write_fails store_AEF 0 (some [67]) [117] [116]
        = (true, { store := some (render_sys sample sys_first_write_fails 0
                      ((update_attempts sys_first_write_fails 0 (some [67])
                          (old_records sample store_AEF)).map fun e =>
                        e.getD (new_record 0 (some [67]) [117] [116]))),
                   temps := store_AEF.temps })
      ∧ (update_stream sample sys_first_write_fails store_AEF 0 (some [67]) [117] [116]).fo.calls
          = (update_attempts sys_first_write_fails 0 (some [67])
              (old_records sample store_AEF)).length
      ∧ (update_attempts sys_first_write_fails 0 (some [67])
            (old_records sample store_AEF)).filterMap (fun e => e)
          = (old_records sample store_AEF).filter (fun l => decide (l.id ≠ 0)) :=
  write_failure_does_not_abort sample sys_first_write_fails store_AEF 0 (some [67]) [117] [116]
    rfl rfl

/-- The write attempts of C8 evaluated with a failing first write. On the store
A, E, F, upserting C with id 0: the five attempts A, C, E, C, F are made, the
attempt of A fails and the others are written with ids 2 to 5. On the store E,
upserting C with id 0: the attempt of C before E fails, E is still written
with id 2, and C is attempted again after the loop and written with id 3. -/
theorem write_failure_examples :
    update_attempts sys_first_write_fails 0 (some [67]) (old_records sample store_AEF)
        = [some (bm 1 65), none, some (bm 2 69), none, some (bm 3 70)]
      ∧ update_attempts sys_first_write_fails 0 (some [67]) [bm 1 69]
        = [none, some (bm 1 69), none]
      ∧ mympd_api_bookmark_update sample sys_first_write_fails
            { store := some (store_image sample [bm 1 69]), temps := [] } 0
            (some [67]) [117] [116]
        = (true, { store := some (bookmarks_line sample 2 [69] [117] [116]
                      ++ bookmarks_line sample 3 [67] [117] [116]),
                   temps := [] }) := by
  decide

/-- C9 as stated fails: a store of 4294967296 lines (each a newline alone) is
reported with totalEntities = 0, the counter being an `unsigned`. -/
theorem list_total_wraps :
    (getlines (List.replicate 4294967296 10)).length = 4294967296
      ∧ (mympd_api_bookmark_list sys_ok
            { store := some (List.replicate 4294967296 10), temps := [] } 0 1).1.map
          ListResult.totalEntities = some 0 := by
  exact ⟨lines_of_newlines 4294967296,
    (list_total sys_ok _ _ 0 1 rfl).trans
      (by rw [lines_of_newlines, uint_wrap])⟩

/-- C9 amended: for a store file of N lines with N < 2 ^ 32, and every offset
and page size with offset + pageSize < 2 ^ 32, the response has
totalEntities = N and returnedEntities = max(0, min(pageSize, N - offset)). -/
theorem list_counts (sys : Sys) (fs : FS) (content : Bytes) (offset pageSize : Nat)
    (hs : fs.store = some content)
    (hN : (getlines content).length < 2 ^ 32)
    (hsum : offset + pageSize < 2 ^ 32) :
    ∃ r : ListResult,
      (mympd_api_bookmark_list sys fs offset pageSize).1 = some r
        ∧ r.totalEntities = (getlines content).length
        ∧ (r.returnedEntities : Int)
          = max 0 (min (pageSize : Int) (((getlines content).length : Int) - (offset : Int))) := by
  have h := list_loop_start offset pageSize hsum (getlines content) hN
  have hl := page_length (getlines content) offset pageSize
  refine ⟨{ data := comma_separated
              ((page (getlines content) offset pageSize).map fun l => cstr (strtok_r l)),
            totalEntities := (getlines content).length,
            offset := offset,
            returnedEntities := (page (getlines content) offset pageSize).length }, ?_, rfl, ?_⟩
  · simp only [mympd_api_bookmark_list, hs, h]
  · simp only [hl]
    omega

/-- C9 amended, at the store A, E, F with offset 1 and page size 5. -/
theorem list_counts_witness :
    ∃ r : ListResult,
      (mympd_api_bookmark_list sys_ok store_AEF 1 5).1 = some r
        ∧ r.totalEntities = (getlines (store_image sample [bm 1 65, bm 2 69, bm 3 70])).length
        ∧ (r.returnedEntities : Int)
          = max 0 (min ((5 : Nat) : Int)
              (((getlines (store_image sample [bm 1 65, bm 2 69, bm 3 70])).length : Int)
                - ((1 : Nat) : Int))) :=
  list_counts sys_ok store_AEF (store_image sample [bm 1 65, bm 2 69, bm 3 70]) 1 5
    rfl (by decide) (by decide)

/-- C10 as stated fails: for the store whose only line is "a", NUL, "b",
newline, the page at offset 0 holds the single byte "a", not the line without
its newline. -/
theorem list_line_cut_at_nul :
    (mympd_api_bookmark_list sys_ok { store := some [97, 0, 98, 10], temps := [] } 0 1).1.map
        ListResult.data = some [97]
      ∧ comma_separated ((page (getlines [97, 0, 98, 10]) 0 1).map strip_newline)
        = [97, 0, 98] := by
  decide

/-- The line that consists of the newline only is appended with its newline:
`strtok_r` finds no token and leaves the buffer as it is. -/
theorem list_blank_line :
    (mympd_api_bookmark_list sys_ok { store := some [10], temps := [] } 0 1).1.map
        ListResult.data = some [10]
      ∧ comma_separated ((page (getlines [10]) 0 1).map strip_newline) = [] := by
  decide

/-- C10 amended: for a store file with fewer than 2 ^ 32 lines, and offset and
page size with offset + pageSize < 2 ^ 32, when no line of the page is the
newline alone, "data" holds exactly the lines whose 1-based position `c`
satisfies offset < c ≤ offset + pageSize, in file order and separated by
commas, each one being the C string of the line (its bytes before the first
NUL) without its terminating newline. -/
theorem list_page_content (sys : Sys) (fs : FS) (content : Bytes) (offset pageSize : Nat)
    (hs : fs.store = some content)
    (hN : (getlines content).length < 2 ^ 32)
    (hsum : offset + pageSize < 2 ^ 32)
    (hblank : ∀ l ∈ page (getlines content) offset pageSize, l ≠ [10]) :
    (mympd_api_bookmark_list sys fs offset pageSize).1.map ListResult.data
      = some (comma_separated
          ((page (getlines content) offset pageSize).map fun l => strip_newline (cstr l))) := by
  have h := list_loop_start offset pageSize hsum (getlines content) hN
  have hmap : (page (getlines content) offset pageSize).map (fun l => cstr (strtok_r l))
      = (page (getlines content) offset pageSize).map fun l => strip_newline (cstr l) := by
    apply List.map_congr_left
    intro l hl
    exact cstr_strtok_r l
      (getlines_newline content l (page_from_subset 0 _ offset pageSize l hl)) (hblank l hl)
  simp only [mympd_api_bookmark_list, hs, Option.map_some', h, hmap]

/-- C10 amended, at the store A, E, F with offset 1 and page size 1: the page
is the line of E without its newline. -/
theorem list_page_content_witness :
    (mympd_api_bookmark_list sys_ok store_AEF 1 1).1.map ListResult.data
      = some (comma_separated
          ((page (getlines (store_image sample [bm 1 65, bm 2 69, bm 3 70])) 1 1).map
            fun l => strip_newline (cstr l))) :=
  list_page_content sys_ok store_AEF (store_image sample [bm 1 65, bm 2 69, bm 3 70]) 1 1
    rfl (by decide) (by decide) (by decide)

/-! # The claims, continued -/

/-- C11: when the store file does not exist and can be created, listing with
any offset and page size creates the store file with empty content and returns
the empty page with totalEntities = 0 and returnedEntities = 0; a second
listing on the resulting directory returns the same empty page and leaves the
empty store file in place. -/
theorem list_creates_empty_store (sys sys2 : Sys) (fs : FS) (offset pageSize : Nat)
    (hs : fs.store = none) (hc : sys.fopen_w_ok = true) :
    mympd_api_bookmark_list sys fs offset pageSize
        = (some { data := [], totalEntities := 0, offset := offset, returnedEntities := 0 },
            { store := some [], temps := fs.temps })
      ∧ mympd_api_bookmark_list sys2 (mympd_api_bookmark_list sys fs offset pageSize).2
            offset pageSize
        = (some { data := [], totalEntities := 0, offset := offset, returnedEntities := 0 },
            { store := some [], temps := fs.temps }) := by
  have h1 : mympd_api_bookmark_list sys fs offset pageSize
      = (some { data := [], totalEntities := 0, offset := offset, returnedEntities := 0 },
          { store := some [], temps := fs.temps }) := by
    simp [mympd_api_bookmark_list, hs, hc]
  refine ⟨h1, ?_⟩
  rw [h1]
  simp [mympd_api_bookmark_list, getlines, getlinesAux]

/-- C11 at the directory without a store file, offset 3 and page size 10. -/
theorem list_creates_empty_store_witness :
    mympd_api_bookmark_list sys_ok store_absent 3 10
        = (some { data := [], totalEntities := 0, offset := 3, returnedEntities := 0 },
            { store := some [], temps := store_absent.temps })
      ∧ mympd_api_bookmark_list sys_rename_fails
            (mympd_api_bookmark_list sys_ok store_absent 3 10).2 3 10
        = (some { data := [], totalEntities := 0, offset := 3, returnedEntities := 0 },
            { store := some [], temps := store_absent.temps }) :=
  list_creates_empty_store sys_ok sys_rename_fails store_absent 3 10 rfl rfl

/-- C12: `mympd_api_bookmark_clear` returns true exactly when the store file
existed and its removal succeeded; the store file is absent after a true
return and as before the call after a false return (absent and not created
when it was absent, still present when the removal failed); no other file of
the directory changes. -/
theorem clear_result (sys : Sys) (fs : FS) :
    ((mympd_api_bookmark_clear sys fs).1 = true
        ↔ fs.store.isSome = true ∧ sys.unlink_ok = true)
      ∧ (mympd_api_bookmark_clear sys fs).2.store
          = (if (mympd_api_bookmark_clear sys fs).1 = true then none else fs.store)
      ∧ (mympd_api_bookmark_clear sys fs).2.temps = fs.temps := by
  unfold mympd_api_bookmark_clear
  cases hs : fs.store <;> cases hu : sys.unlink_ok <;> simp [hs]

/-- The three cases of C12 evaluated: the store A, E, F is removed; without a
store file the call returns false and creates nothing; when `unlink` fails the
call returns false and the store is still there. -/
theorem clear_examples :
    mympd_api_bookmark_clear sys_ok store_AEF = (true, { store := none, temps := [] })
      ∧ mympd_api_bookmark_clear sys_ok store_absent = (false, store_absent)
      ∧ mympd_api_bookmark_clear sys_unlink_fails store_AEF = (false, store_AEF) := by
  decide

/-- C14 as stated fails: on the store A, E, F with a failing rename, the
call returns false and the directory holds one temporary file more than
before, with the lines written by the call. -/
theorem rename_failure_leaves_temp_file :
    store_AEF.temps = []
      ∧ mympd_api_bookmark_update sample sys_rename_fails store_AEF 2 none [] []
        = (false, { store := store_AEF.store,
                    temps := [store_image sample [bm 1 65, bm 2 70]] }) := by
  decide

/-- C14 amended: when the temporary file was created and the final rename
fails, the call returns false, the store file is as before, and the temporary
file is not removed: the directory holds it in addition to the files it held
before, with the lines of the write attempts that succeeded. -/
theorem rename_failure_keeps_temp_file (x : Helpers) (sys : Sys) (fs : FS) (id : Int)
    (name : Option CStr) (uri type : CStr)
    (hm : sys.mkstemp_ok = true) (hr : sys.rename_ok = false) :
    ∃ recs : List Bookmark,
      mympd_api_bookmark_update x sys fs id name uri type
        = (false, { store := fs.store, temps := render_sys x sys 0 recs :: fs.temps }) := by
  obtain ⟨recs, h⟩ := update_stream_attempts x sys fs id name uri type
  exact ⟨recs, by simp [mympd_api_bookmark_update, hm, hr, h]⟩

/-- C14 amended, at the store A, E, F with a failing rename. -/
theorem rename_failure_keeps_temp_file_witness :
    ∃ recs : List Bookmark,
      mympd_api_bookmark_update sample sys_rename_fails store_AEF 2 none [] []
        = (false, { store := store_AEF.store,
                    temps := render_sys sample sys_rename_fails 0 recs :: store_AEF.temps }) :=
  rename_failure_keeps_temp_file sample sys_rename_fails store_AEF 2 none [] [] rfl rfl

/-! ## Lemmas on the written records -/

theorem loop_entries_length (id : Int) (name : Option CStr) (olds : List Bookmark) :
    (loop_entries id name olds).length
      = (olds.filter fun l => decide (l.id ≠ id)).length
        + (olds.filter (name_before name)).length := by
  induction olds with
  | nil => simp [loop_entries]
  | cons l ls ih =>
    by_cases hb : name_before name l = true <;> by_cases hid : l.id = id <;>
      simp [loop_entries, hb, hid, ih, List.filter_cons] <;> omega

theorem any_iff_filter_pos (olds : List Bookmark) (f : Bookmark → Bool) :
    olds.any f = true ↔ 0 < (olds.filter f).length := by
  induction olds with
  | nil => simp
  | cons l ls ih =>
    by_cases h : f l = true
    · simp [List.filter_cons, h]
    · simp only [Bool.not_eq_true] at h
      simp [List.filter_cons, h, ih]

theorem update_records_length (id : Int) (name : Option CStr) (uri type : CStr)
    (olds : List Bookmark) :
    (update_records id name uri type olds).length
      = match name with
        | some nm =>
          (olds.filter fun l => decide (l.id ≠ id)).length
            + max 1 (olds.filter fun l => decide (strcmp nm l.name < 0)).length
        | none => (olds.filter fun l => decide (l.id ≠ id)).length := by
  unfold update_records update_entries
  rw [List.length_map, List.length_append, loop_entries_length]
  cases name with
  | none => simp [name_before]
  | some nm =>
    have hf : (fun l => name_before (some nm) l) = fun l => decide (strcmp nm l.name < 0) := rfl
    have h := any_iff_filter_pos olds (name_before (some nm))
    by_cases ha : olds.any (name_before (some nm)) = true
    · have hp := h.mp ha
      simp only [Option.isSome_some, ha, Bool.not_true, Bool.and_false, Bool.false_eq_true,
        if_false, List.length_nil]
      change _ = _ + max 1 (olds.filter (name_before (some nm))).length
      omega
    · have hp : (olds.filter (name_before (some nm))).length = 0 := by
        by_contra hne
        exact ha (h.mpr (by omega))
      simp only [Bool.not_eq_true] at ha
      simp only [Option.isSome_some, ha, Bool.not_false, Bool.and_self, if_true,
        List.length_singleton]
      change _ = _ + max 1 (olds.filter (name_before (some nm))).length
      omega

theorem render_own_ids (x : Helpers) (recs : List Bookmark) (n : Int)
    (hid : ∀ i (h : i < recs.length), recs[i].id = n + (i : Int) + 1) :
    render x n recs
      = (recs.map fun r => bookmarks_line x r.id r.name r.uri r.type).flatten := by
  induction recs generalizing n with
  | nil => rfl
  | cons r rs ih =>
    have hr : r.id = n + 1 := by
      have := hid 0 (by simp)
      simpa using this
    have hrs : ∀ i (h : i < rs.length), rs[i].id = (n + 1) + (i : Int) + 1 := by
      intro i h
      have := hid (i + 1) (by simpa using h)
      simp only [List.getElem_cons_succ] at this
      rw [this]
      push_cast
      ring
    rw [render, ih (n + 1) hrs, List.map_cons, List.flatten_cons, hr]

theorem getlinesAux_line (cur init rest : Bytes) (h : 10 ∉ init) :
    getlinesAux cur (init ++ 10 :: rest)
      = (cur.reverse ++ init ++ [10]) :: getlinesAux [] rest := by
  induction init generalizing cur with
  | nil => simp [getlinesAux]
  | cons b bs ih =>
    have hb : b ≠ 10 := fun e => h (by simp [e])
    have hbs : 10 ∉ bs := fun e => h (List.mem_cons_of_mem _ e)
    rw [List.cons_append, getlinesAux, if_neg hb, ih (b :: cur) hbs]
    simp

/-- A file made of lines that each end with their only newline is read back
line by line. -/
theorem getlines_flatten (ls : List Bytes)
    (h : ∀ l ∈ ls, l.getLast? = some 10 ∧ 10 ∉ l.dropLast) :
    getlines ls.flatten = ls := by
  unfold getlines
  induction ls with
  | nil => rfl
  | cons l rest ih =>
    obtain ⟨h1, h2⟩ := h l (List.mem_cons_self _ _)
    have hl : l = l.dropLast ++ [10] :=
      (List.dropLast_append_getLast? 10 (by simp [h1])).symm
    have e : (l :: rest).flatten = l.dropLast ++ 10 :: rest.flatten := by
      rw [List.flatten_cons]
      nth_rewrite 1 [hl]
      simp
    rw [e, getlinesAux_line [] _ _ h2, ih (fun m hm => h m (List.mem_cons_of_mem _ hm))]
    simp only [List.reverse_nil, List.nil_append]
    rw [← hl]

theorem bookmarks_line_last (x : Helpers) (i : Int) (n u t : CStr) :
    (bookmarks_line x i n u t).getLast? = some 10 := by
  simp [bookmarks_line]

/-! # The claims, continued: rewrites -/

/-- C15: for every store (any stored ids, repeated or different from the
positions, lines that do not scan, or no file) and every `id`, with the
temporary file created, every write and the rename succeeding, the lines
written from old records (`some l`) are exactly the scanned lines whose stored
id differs from `id`, in their order: every scanned line whose stored id equals
`id` is removed, however many there are, and every scanned line whose stored id
differs is kept, whatever its position. -/
theorem removal_matches_stored_id (x : Helpers) (sys : Sys) (fs : FS) (id : Int)
    (name : Option CStr) (uri type : CStr)
    (hm : sys.mkstemp_ok = true) (hw : sys.writes_ok) (hr : sys.rename_ok = true) :
    ∃ es : List (Option Bookmark),
      mympd_api_bookmark_update x sys fs id name uri type
        = (true, { store := some (store_image x
                      (es.map fun e => e.getD (new_record id name uri type))),
                   temps := fs.temps })
      ∧ es.filterMap (fun e => e)
        = (old_records x fs).filter (fun l => decide (l.id ≠ id))
      ∧ (∀ l ∈ old_records x fs, l.id = id → some l ∉ es)
      ∧ (∀ l ∈ old_records x fs, l.id ≠ id → some l ∈ es) := by
  have hf := update_entries_olds id name (old_records x fs)
  have hmem : ∀ l, some l ∈ update_entries id name (old_records x fs)
      ↔ l ∈ (old_records x fs).filter (fun l => decide (l.id ≠ id)) := by
    intro l
    rw [← hf, List.mem_filterMap]
    constructor
    · intro h
      exact ⟨some l, h, rfl⟩
    · rintro ⟨a, ha, rfl⟩
      exact ha
  refine ⟨update_entries id name (old_records x fs), ?_, hf, ?_, ?_⟩
  · rw [update_ok x sys hm hw hr]
    rfl
  · intro l _ hl hin
    have := (hmem l).mp hin
    simp [List.mem_filter, hl] at this
  · intro l hl hne
    exact (hmem l).mpr (by simp [List.mem_filter, hl, hne])

/-- C15 at the store A, B, C with stored ids 5, 5, 1 and `id = 5`. -/
theorem removal_matches_stored_id_witness :
    ∃ es : List (Option Bookmark),
      mympd_api_bookmark_update sample sys_ok store_ids_551 5 none [] []
        = (true, { store := some (store_image sample
                      (es.map fun e => e.getD (new_record 5 none [] []))),
                   temps := store_ids_551.temps })
      ∧ es.filterMap (fun e => e)
        = (old_records sample store_ids_551).filter (fun l => decide (l.id ≠ 5))
      ∧ (∀ l ∈ old_records sample store_ids_551, l.id = 5 → some l ∉ es)
      ∧ (∀ l ∈ old_records sample store_ids_551, l.id ≠ 5 → some l ∈ es) :=
  removal_matches_stored_id sample sys_ok store_ids_551 5 none [] [] rfl (fun _ => rfl) rfl

/-- The examples of C15 evaluated on the store A, B, C with stored ids 5, 5, 1:
deleting id 5 removes the two lines A and B and leaves C; deleting id 1 removes
the third line C and keeps the line in position 1, whose stored id is 5;
deleting id 2 removes nothing. -/
theorem removal_examples :
    mympd_api_bookmark_update sample sys_ok store_ids_551 5 none [] []
        = (true, { store := some (store_image sample [bm 1 67]), temps := [] })
      ∧ mympd_api_bookmark_update sample sys_ok store_ids_551 1 none [] []
        = (true, { store := some (store_image sample [bm 1 65, bm 2 66]), temps := [] })
      ∧ mympd_api_bookmark_update sample sys_ok store_ids_551 2 none [] []
        = (true, { store := some (store_image sample [bm 1 65, bm 2 66, bm 3 67]),
                   temps := [] }) := by
  decide

/-- C16: for every store, every `id` and every new record, with the
temporary file created, every write and the rename succeeding, the new store
consists of the lines of `recs`, numbered from 1, where `recs` has exactly
K + max(1, G) elements when `name` is not NULL and exactly K elements when it
is NULL; K is the number of scanned old lines whose stored id differs from
`id`, G the number of scanned old lines whose name is strictly greater than
the new name. -/
theorem update_line_count (x : Helpers) (sys : Sys) (fs : FS) (id : Int)
    (name : Option CStr) (uri type : CStr)
    (hm : sys.mkstemp_ok = true) (hw : sys.writes_ok) (hr : sys.rename_ok = true) :
    ∃ recs : List Bookmark,
      mympd_api_bookmark_update x sys fs id name uri type
        = (true, { store := some (store_image x recs), temps := fs.temps })
      ∧ recs.length
        = match name with
          | some nm =>
            ((old_records x fs).filter fun l => decide (l.id ≠ id)).length
              + max 1 ((old_records x fs).filter fun l => decide (strcmp nm l.name < 0)).length
          | none => ((old_records x fs).filter fun l => decide (l.id ≠ id)).length :=
  ⟨update_records id name uri type (old_records x fs), update_ok x sys hm hw hr fs id name uri type,
    update_records_length id name uri type (old_records x fs)⟩

/-- C16 at the store A, E, F, upserting C with id 0: K = 3 and G = 2. -/
theorem update_line_count_witness :
    ∃ recs : List Bookmark,
      mympd_api_bookmark_update sample sys_ok store_AEF 0 (some [67]) [117] [116]
        = (true, { store := some (store_image sample recs), temps := store_AEF.temps })
      ∧ recs.length
        = match (some [67] : Option CStr) with
          | some nm =>
            ((old_records sample store_AEF).filter fun l => decide (l.id ≠ 0)).length
              + max 1 ((old_records sample store_AEF).filter
                  fun l => decide (strcmp nm l.name < 0)).length
          | none => ((old_records sample store_AEF).filter fun l => decide (l.id ≠ 0)).length :=
  update_line_count sample sys_ok store_AEF 0 (some [67]) [117] [116] rfl (fun _ => rfl) rfl

/-- The example of C16 evaluated: on the store A, E, F, with C and id 0,
K = 3, G = 2 and the new store has 5 lines; with C and id 2 the new store
has 2 + 2 = 4 lines; the delete of id 2 leaves 2 lines. -/
theorem line_count_examples :
    ((mympd_api_bookmark_update sample sys_ok store_AEF 0 (some [67]) [117] [116]).2.store.map
        fun c => (getlines c).length) = some 5
      ∧ ((mympd_api_bookmark_update sample sys_ok store_AEF 2 (some [67]) [117] [116]).2.store.map
        fun c => (getlines c).length) = some 4
      ∧ ((mympd_api_bookmark_update sample sys_ok store_AEF 2 none [] []).2.store.map
        fun c => (getlines c).length) = some 2 := by
  decide

/-- C18: on a store whose lines all scan, with stored ids equal to the 1-based
positions, a delete (`name = NULL`) with an `id` outside 1..N, the temporary
file created, every write and the rename succeeding, returns true and writes
the lines built from the same records, in the same order, each with its own
id, name, uri and type. When these lines scan back to the records they were
built from and hold no newline but their last byte, the new store scans to the
same sequence of records as the old one. -/
theorem delete_without_match_is_identity (x : Helpers) (sys : Sys) (fs : FS)
    (content : Bytes) (recs : List Bookmark) (k : Int) (uri type : CStr)
    (hs : fs.store = some content)
    (hdec : (getlines content).map x.json_scanf = recs.map some)
    (hid : ∀ i (h : i < recs.length), recs[i].id = (i : Int) + 1)
    (hk : k < 1 ∨ (recs.length : Int) < k)
    (hm : sys.mkstemp_ok = true) (hw : sys.writes_ok) (hr : sys.rename_ok = true) :
    mympd_api_bookmark_update x sys fs k none uri type
        = (true, { store := some
                      ((recs.map fun r => bookmarks_line x r.id r.name r.uri r.type).flatten),
                   temps := fs.temps })
      ∧ ((∀ r ∈ recs, 10 ∉ (bookmarks_line x r.id r.name r.uri r.type).dropLast
            ∧ x.json_scanf (bookmarks_line x r.id r.name r.uri r.type) = some r)
          → (getlines ((recs.map fun r =>
                bookmarks_line x r.id r.name r.uri r.type).flatten)).map x.json_scanf
              = (getlines content).map x.json_scanf) := by
  have hold : old_records x fs = recs := by
    simp only [old_records, hs]
    exact filterMap_of_map_some _ _ _ hdec
  have hne : ∀ l ∈ recs, l.id ≠ k := by
    intro l hl
    obtain ⟨i, hi, rfl⟩ := List.getElem_of_mem hl
    rw [hid i hi]
    omega
  constructor
  · rw [update_ok x sys hm hw hr, hold, update_records_delete, filter_all_ne k recs hne,
      store_image_eq_render,
      render_own_ids x recs 0 (by intro i h; rw [hid i h]; ring)]
  · intro hx
    rw [getlines_flatten, hdec, List.map_map]
    · apply List.map_congr_left
      intro r hr2
      exact (hx r hr2).2
    · intro l hl
      obtain ⟨r, hr2, rfl⟩ := List.mem_map.mp hl
      exact ⟨bookmarks_line_last x _ _ _ _, (hx r hr2).1⟩

/-- C18 at the store A, E, F with `id = 7`. -/
theorem delete_without_match_is_identity_witness :
    mympd_api_bookmark_update sample sys_ok store_AEF 7 none [] []
        = (true, { store := some
                      (([bm 1 65, bm 2 69, bm 3 70].map fun r =>
                        bookmarks_line sample r.id r.name r.uri r.type).flatten),
                   temps := store_AEF.temps })
      ∧ ((∀ r ∈ [bm 1 65, bm 2 69, bm 3 70],
            10 ∉ (bookmarks_line sample r.id r.name r.uri r.type).dropLast
            ∧ sample.json_scanf (bookmarks_line sample r.id r.name r.uri r.type) = some r)
          → (getlines (([bm 1 65, bm 2 69, bm 3 70].map fun r =>
                bookmarks_line sample r.id r.name r.uri r.type).flatten)).map sample.json_scanf
              = (getlines (store_image sample [bm 1 65, bm 2 69, bm 3 70])).map
                  sample.json_scanf) :=
  delete_without_match_is_identity sample sys_ok store_AEF
    (store_image sample [bm 1 65, bm 2 69, bm 3 70]) [bm 1 65, bm 2 69, bm 3 70] 7 [] []
    rfl (by decide) (by decide) (by decide) rfl (fun _ => rfl) rfl

/-- The example of C18 evaluated: deleting id 7, 0 or -1 from the store
A, E, F leaves the bytes of the store as they were. -/
theorem delete_without_match_examples :
    (mympd_api_bookmark_update sample sys_ok store_AEF 7 none [] []).2 = store_AEF
      ∧ (mympd_api_bookmark_update sample sys_ok store_AEF 0 none [] []).2 = store_AEF
      ∧ (mympd_api_bookmark_update sample sys_ok store_AEF (-1) none [] []).2 = store_AEF := by
  decide

/-! ## Lemmas for the round trip -/

theorem cstr_of_no_nul (l : Bytes) (h : 0 ∉ l) : cstr l = l := by
  induction l with
  | nil => rfl
  | cons b bs ih =>
    have hb : b ≠ 0 := fun e => h (by simp [e])
    rw [cstr, if_neg hb, ih (fun e => h (List.mem_cons_of_mem _ e))]

theorem update_empty_store (x : Helpers) (sys : Sys) (fs : FS) (id : Int)
    (name uri type : CStr) (hfs : fs.store = none ∨ fs.store = some [])
    (hm : sys.mkstemp_ok = true) (hw : sys.writes_ok) (hr : sys.rename_ok = true) :
    mympd_api_bookmark_update x sys fs id (some name) uri type
      = (true, { store := some (bookmarks_line x 1 name uri type), temps := fs.temps }) := by
  have hold : old_records x fs = [] := by
    rcases hfs with h | h <;> simp [old_records, h, getlines, getlinesAux]
  rw [update_ok x sys hm hw hr, hold]
  simp [update_records, update_entries, loop_entries, new_record, store_image, List.enum]

theorem list_single_line (sys : Sys) (temps : List Bytes) (line : Bytes) (pageSize : Nat)
    (hp1 : 1 ≤ pageSize) (hp2 : pageSize < 2 ^ 32)
    (hlast : line.getLast? = some 10) (hnl : 10 ∉ line.dropLast) (hnul : 0 ∉ line)
    (hlen : line ≠ [10]) :
    (mympd_api_bookmark_list sys { store := some line, temps := temps } 0 pageSize).1
      = some { data := line.dropLast, totalEntities := 1, offset := 0,
               returnedEntities := 1 } := by
  have hg : getlines line = [line] := by
    have := getlines_flatten [line] (by
      intro l hl
      rw [List.mem_singleton] at hl
      subst hl
      exact ⟨hlast, hnl⟩)
    simpa using this
  have hpage : page [line] 0 pageSize = [line] := by
    unfold page
    rw [page_from_cons, if_pos (by omega)]
    simp [page_from]
  have htext : cstr (strtok_r line) = line.dropLast := by
    rw [cstr_strtok_r line hnl hlen, cstr_of_no_nul line hnul, strip_newline, if_pos hlast]
  simp only [mympd_api_bookmark_list, hg]
  rw [list_loop_start 0 pageSize (by omega) [line] (by norm_num), hpage]
  simp [comma_separated, htext]

theorem bookmarks_line_ne_newline (x : Helpers) (i : Int) (n u t : CStr) :
    bookmarks_line x i n u t ≠ [10] := by
  intro h
  have := congrArg List.length h
  simp [bookmarks_line] at this

/-! # The claims, continued: round trip -/

/-- C13: on an absent or empty store, an upsert with any `id` and a name that
is not NULL (temporary file created, every write and the rename succeeding),
followed by a listing with offset 0 and a page size of at least 1, yields
totalEntities = 1, returnedEntities = 1 and one record: the line
`write_bookmarks_line` builds from id 1 and the given name, uri and type,
without its newline, whatever `id` was passed. The line built by the helpers
is taken to hold no NUL and no newline but its last byte. -/
theorem upsert_then_list_round_trip (x : Helpers) (sys sys2 : Sys) (fs : FS) (id : Int)
    (name uri type : CStr) (pageSize : Nat)
    (hfs : fs.store = none ∨ fs.store = some [])
    (hm : sys.mkstemp_ok = true) (hw : sys.writes_ok) (hr : sys.rename_ok = true)
    (hp1 : 1 ≤ pageSize) (hp2 : pageSize < 2 ^ 32)
    (hnl : 10 ∉ (bookmarks_line x 1 name uri type).dropLast)
    (hnul : 0 ∉ bookmarks_line x 1 name uri type) :
    (mympd_api_bookmark_update x sys fs id (some name) uri type).1 = true
      ∧ (mympd_api_bookmark_list sys2
            (mympd_api_bookmark_update x sys fs id (some name) uri type).2 0 pageSize).1
          = some { data := (bookmarks_line x 1 name uri type).dropLast,
                   totalEntities := 1, offset := 0, returnedEntities := 1 } := by
  rw [update_empty_store x sys fs id name uri type hfs hm hw hr]
  exact ⟨rfl, list_single_line sys2 fs.temps _ pageSize hp1 hp2
    (bookmarks_line_last x 1 name uri type) hnl hnul (bookmarks_line_ne_newline x 1 name uri type)⟩

/-- C13 at the example of the claim: upsert(0, "A", "u1", "t1") on a directory
without a store file, then a listing with offset 0 and page size 10. -/
theorem upsert_then_list_round_trip_witness :
    (mympd_api_bookmark_update sample sys_ok store_absent 0 (some [65]) [117, 49] [116, 49]).1
        = true
      ∧ (mympd_api_bookmark_list sys_ok
            (mympd_api_bookmark_update sample sys_ok store_absent 0 (some [65])
              [117, 49] [116, 49]).2 0 10).1
          = some { data := (bookmarks_line sample 1 [65] [117, 49] [116, 49]).dropLast,
                   totalEntities := 1, offset := 0, returnedEntities := 1 } :=
  upsert_then_list_round_trip sample sys_ok sys_ok store_absent 0 [65] [117, 49] [116, 49] 10
    (Or.inl rfl) rfl (fun _ => rfl) rfl (by decide) (by decide) (by decide) (by decide)

/-- The example of C13 evaluated: the record returned scans to id 1, name "A",
uri "u1", type "t1", also when the id passed is 42. -/
theorem round_trip_examples :
    ((mympd_api_bookmark_list sys_ok
        (mympd_api_bookmark_update sample sys_ok store_absent 0 (some [65])
          [117, 49] [116, 49]).2 0 10).1.map fun r => sample.json_scanf r.data)
        = some (some { id := 1, name := [65], uri := [117, 49], type := [116, 49] })
      ∧ ((mympd_api_bookmark_list sys_ok
        (mympd_api_bookmark_update sample sys_ok { store := some [], temps := [] } 42
          (some [65]) [117, 49] [116, 49]).2 0 1).1.map fun r => sample.json_scanf r.data)
        = some (some { id := 1, name := [65], uri := [117, 49], type := [116, 49] }) := by
  decide

/-! ## Lemmas on the records of a listing -/

/-- The buffer built by the loop holds the records of `list_records_from`,
separated the way `append_wrap` does. -/
theorem list_loop_records (offset p : Nat) (lines : List Bytes) (s : ListState) :
    (lines.foldl (list_step offset p) s).buffer
      = append_wrap s.entities_returned s.buffer
          (list_records_from offset p s.entity_count lines) := by
  induction lines generalizing s with
  | nil => rfl
  | cons l ls ih =>
    rw [List.foldl_cons, ih, list_records_from]
    by_cases h : (s.entity_count + 1) % 2 ^ 32 > offset
        ∧ (s.entity_count + 1) % 2 ^ 32 ≤ (offset + p) % 2 ^ 32
    · simp only [list_step, h, and_self, if_true, List.singleton_append, append_wrap]
    · simp only [list_step, h, if_false, List.nil_append]

theorem list_data_records (sys : Sys) (fs : FS) (content : Bytes) (offset p : Nat)
    (hs : fs.store = some content) :
    (mympd_api_bookmark_list sys fs offset p).1.map ListResult.data
      = some (append_wrap 0 [] (list_records fs offset p)) := by
  simp only [mympd_api_bookmark_list, list_records, hs, Option.map_some']
  rw [list_loop_records]

theorem append_wrap_nowrap (r : Nat) (buf : Bytes) (recs : List Bytes)
    (h : r + recs.length < 2 ^ 32) :
    append_wrap r buf recs = append_records r buf recs := by
  induction recs generalizing r buf with
  | nil => rfl
  | cons x xs ih =>
    simp only [List.length_cons] at h
    have m : (r + 1) % 2 ^ 32 = r + 1 := Nat.mod_eq_of_lt (by omega)
    rw [append_wrap, append_records, m, ih (r + 1) _ (by omega)]

theorem list_records_from_nowrap (offset p : Nat) (hsum : offset + p < 2 ^ 32)
    (lines : List Bytes) (c : Nat) (hc : c + lines.length < 2 ^ 32) :
    list_records_from offset p c lines
      = (page_from c lines offset p).map fun l => cstr (strtok_r l) := by
  induction lines generalizing c with
  | nil => simp [list_records_from, page_from]
  | cons l ls ih =>
    simp only [List.length_cons] at hc
    have m1 : (c + 1) % 2 ^ 32 = c + 1 := Nat.mod_eq_of_lt (by omega)
    have m2 : (offset + p) % 2 ^ 32 = offset + p := Nat.mod_eq_of_lt hsum
    rw [list_records_from, page_from_cons, m1, m2, ih (c + 1) (by omega)]
    by_cases h : offset < c + 1 ∧ c + 1 ≤ offset + p
    · rw [if_pos h, if_pos (by exact h)]
      rfl
    · rw [if_neg h, if_neg (by exact h)]
      rfl

theorem list_records_nowrap (fs : FS) (content : Bytes) (offset p : Nat)
    (hs : fs.store = some content) (hN : (getlines content).length < 2 ^ 32)
    (hsum : offset + p < 2 ^ 32) :
    list_records fs offset p
      = ((getlines content).drop offset |>.take p).map fun l => cstr (strtok_r l) := by
  simp only [list_records, hs]
  rw [list_records_from_nowrap offset p hsum _ 0 (by simpa using hN), page_from_eq_take_drop]
  simp

theorem list_records_from_append (offset p : Nat) (a b : List Bytes) (c : Nat)
    (hc : c < 2 ^ 32) :
    list_records_from offset p c (a ++ b)
      = list_records_from offset p c a
        ++ list_records_from offset p ((c + a.length) % 2 ^ 32) b := by
  induction a generalizing c with
  | nil =>
    simp only [List.nil_append, List.length_nil, Nat.add_zero, list_records_from]
    rw [Nat.mod_eq_of_lt hc]
  | cons l ls ih =>
    have hm : (c + 1) % 2 ^ 32 < 2 ^ 32 := Nat.mod_lt _ (by norm_num)
    have e : ((c + 1) % 2 ^ 32 + ls.length) % 2 ^ 32 = (c + (l :: ls).length) % 2 ^ 32 := by
      simp only [List.length_cons]
      omega
    rw [List.cons_append, list_records_from, list_records_from, ih _ hm, e, List.append_assoc]

/-- Lines whose counter value never falls in the page give no record. -/
theorem list_records_from_skip (offset p : Nat) (l : Bytes) (n c : Nat)
    (h : ∀ j, j < n → ¬ ((c + 1 + j) % 2 ^ 32 > offset
        ∧ (c + 1 + j) % 2 ^ 32 ≤ (offset + p) % 2 ^ 32)) :
    list_records_from offset p c (List.replicate n l) = [] := by
  induction n generalizing c with
  | zero => rfl
  | succ n ih =>
    have h0 := h 0 (by omega)
    rw [Nat.add_zero] at h0
    rw [List.replicate_succ, list_records_from, if_neg h0, List.nil_append]
    apply ih
    intro j hj
    have hj2 := h (j + 1) (by omega)
    have e : ((c + 1) % 2 ^ 32 + 1 + j) % 2 ^ 32 = (c + 1 + (j + 1)) % 2 ^ 32 := by omega
    rw [e]
    exact hj2

theorem getlines_lines_wrap (n : Nat) : getlines (lines_wrap n).flatten = lines_wrap n := by
  apply getlines_flatten
  intro l hl
  unfold lines_wrap at hl
  rcases List.mem_append.mp hl with h | h
  · rcases List.mem_cons.mp h with h | h
    · subst h
      decide
    · rw [List.mem_singleton] at h
      subst h
      decide
  · rcases List.mem_append.mp h with h | h
    · rw [List.eq_of_mem_replicate h]
      decide
    · rcases List.mem_cons.mp h with h | h
      · subst h
        decide
      · rw [List.mem_singleton] at h
        subst h
        decide

/-- The records of a listing of `store_wrap n` when the counter wraps exactly
after the lines "x": the lines "a", "b" are counted 1, 2, the lines "x" are
counted 3 to 2 ^ 32 - 1 and 0, and the lines "c", "d" again 1, 2. -/
theorem list_records_store_wrap (offset p : Nat) (n : Nat) (hn : n + 2 = 2 ^ 32)
    (hskip : ∀ c, 3 ≤ c ∨ c = 0 → c < 2 ^ 32 →
      ¬ (c > offset ∧ c ≤ (offset + p) % 2 ^ 32)) :
    list_records (store_wrap n) offset p
      = list_records_from offset p 0 [[97, 10], [98, 10]]
        ++ list_records_from offset p 0 [[99, 10], [100, 10]] := by
  have hfill : list_records_from offset p 2 (List.replicate n [120, 10]) = [] := by
    apply list_records_from_skip
    intro j hj
    apply hskip
    · omega
    · exact Nat.mod_lt _ (by norm_num)
  have e1 : (0 + ([[97, 10], [98, 10]] : List Bytes).length) % 2 ^ 32 = 2 := by
    simp
  have e2 : (2 + (List.replicate n ([120, 10] : Bytes)).length) % 2 ^ 32 = 0 := by
    rw [List.length_replicate]
    omega
  simp only [list_records, store_wrap]
  rw [getlines_lines_wrap, lines_wrap,
    list_records_from_append offset p _ _ 0 (by norm_num), e1,
    list_records_from_append offset p _ _ 2 (by norm_num), e2, hfill, List.nil_append]

theorem list_records_tile (fs : FS) (content : Bytes) (offset p q : Nat)
    (hs : fs.store = some content) (hN : (getlines content).length < 2 ^ 32)
    (hsum : offset + p + q < 2 ^ 32) :
    list_records fs offset p ++ list_records fs (offset + p) q
      = list_records fs offset (p + q) := by
  rw [list_records_nowrap fs content offset p hs hN (by omega),
    list_records_nowrap fs content (offset + p) q hs hN hsum,
    list_records_nowrap fs content offset (p + q) hs hN (by omega),
    List.take_add, List.drop_drop, List.map_append]

theorem list_records_pages (fs : FS) (content : Bytes) (p k : Nat)
    (hs : fs.store = some content) (hN : (getlines content).length < 2 ^ 32)
    (hk : k * p < 2 ^ 32) :
    ((List.range k).map fun i => list_records fs (i * p) p).flatten
      = list_records fs 0 (k * p) := by
  induction k with
  | zero =>
    rw [list_records_nowrap fs content 0 (0 * p) hs hN (by omega)]
    simp
  | succ k ih =>
    have e : (k + 1) * p = k * p + p := Nat.succ_mul k p
    have hk2 : k * p < 2 ^ 32 := by omega
    have ht := list_records_tile fs content 0 (k * p) p hs hN (by omega)
    rw [Nat.zero_add] at ht
    rw [List.range_succ, List.map_append, List.flatten_append, ih hk2, e, ← ht]
    simp

theorem append_wrap_records (fs : FS) (content : Bytes) (offset p : Nat)
    (hs : fs.store = some content) (hN : (getlines content).length < 2 ^ 32)
    (hsum : offset + p < 2 ^ 32) :
    append_wrap 0 [] (list_records fs offset p) = comma_separated (list_records fs offset p) := by
  have hlen : (list_records fs offset p).length ≤ (getlines content).length := by
    rw [list_records_nowrap fs content offset p hs hN hsum, List.length_map, List.length_take,
      List.length_drop]
    omega
  rw [append_wrap_nowrap 0 [] _ (by omega), append_records_zero]

/-! # The claims, continued: pages -/

/-- C17 as stated fails: in a store of 2 ^ 32 + 2 lines "a", "b", 4294967294
lines "x", "c", "d", the counter of lines wraps and counts "c" and "d" as
lines 1 and 2 again. With offset 0 and p = q = 1, the listing (0, 1) returns
"a", "c", the listing (1, 1) returns "b", "d", and the listing (0, 2) returns
"a", "b", "c", "d", which is not the first page followed by the second. -/
theorem pages_interleave_after_wrap :
    list_records (store_wrap 4294967294) 0 1 = [[97], [99]]
      ∧ list_records (store_wrap 4294967294) 1 1 = [[98], [100]]
      ∧ list_records (store_wrap 4294967294) 0 2 = [[97], [98], [99], [100]]
      ∧ (mympd_api_bookmark_list sys_ok (store_wrap 4294967294) 0 1).1.map ListResult.data
          = some [97, 44, 99]
      ∧ (mympd_api_bookmark_list sys_ok (store_wrap 4294967294) 1 1).1.map ListResult.data
          = some [98, 44, 100]
      ∧ (mympd_api_bookmark_list sys_ok (store_wrap 4294967294) 0 2).1.map ListResult.data
          = some [97, 44, 98, 44, 99, 44, 100] := by
  have h1 : list_records (store_wrap 4294967294) 0 1 = [[97], [99]] := by
    rw [list_records_store_wrap 0 1 4294967294 (by norm_num) (by intro c h1 h2; omega)]
    decide
  have h2 : list_records (store_wrap 4294967294) 1 1 = [[98], [100]] := by
    rw [list_records_store_wrap 1 1 4294967294 (by norm_num) (by intro c h1 h2; omega)]
    decide
  have h3 : list_records (store_wrap 4294967294) 0 2 = [[97], [98], [99], [100]] := by
    rw [list_records_store_wrap 0 2 4294967294 (by norm_num) (by intro c h1 h2; omega)]
    decide
  refine ⟨h1, h2, h3, ?_, ?_, ?_⟩
  · rw [list_data_records sys_ok (store_wrap 4294967294) _ 0 1 rfl, h1]
    decide
  · rw [list_data_records sys_ok (store_wrap 4294967294) _ 1 1 rfl, h2]
    decide
  · rw [list_data_records sys_ok (store_wrap 4294967294) _ 0 2 rfl, h3]
    decide

/-- C17 amended: for a store file with fewer than 2 ^ 32 lines, and offset and
page sizes p, q with offset + p + q < 2 ^ 32, the records of the listing
(offset, p) followed by those of the listing (offset + p, q) are the records of
the listing (offset, p + q); "data" holds the records of a listing separated
by commas; and when k pages of size p stay below 2 ^ 32 and cover the store,
the records of the pages at offsets 0, p, ..., (k - 1) p, one after the other,
are the strings appended for the lines of the store, each line once, in file
order. -/
theorem pages_tile (sys : Sys) (fs : FS) (content : Bytes) (offset p q : Nat)
    (hs : fs.store = some content) (hN : (getlines content).length < 2 ^ 32)
    (hsum : offset + p + q < 2 ^ 32) :
    list_records fs offset p ++ list_records fs (offset + p) q
        = list_records fs offset (p + q)
      ∧ (∀ o n, o + n < 2 ^ 32 →
          (mympd_api_bookmark_list sys fs o n).1.map ListResult.data
            = some (comma_separated (list_records fs o n)))
      ∧ (∀ k, k * p < 2 ^ 32 → (getlines content).length ≤ k * p →
          ((List.range k).map fun i => list_records fs (i * p) p).flatten
            = (getlines content).map fun l => cstr (strtok_r l)) := by
  refine ⟨list_records_tile fs content offset p q hs hN hsum, ?_, ?_⟩
  · intro o n hon
    rw [list_data_records sys fs content o n hs, append_wrap_records fs content o n hs hN hon]
  · intro k hk hcover
    rw [list_records_pages fs content p k hs hN hk,
      list_records_nowrap fs content 0 (k * p) hs hN (by omega), List.drop_zero,
      List.take_of_length_le hcover]

/-- C17 amended, at the store A, E, F with offset 0, p = 1 and q = 2. -/
theorem pages_tile_witness :
    list_records store_AEF 0 1 ++ list_records store_AEF (0 + 1) 2
        = list_records store_AEF 0 (1 + 2)
      ∧ (∀ o n, o + n < 2 ^ 32 →
          (mympd_api_bookmark_list sys_ok store_AEF o n).1.map ListResult.data
            = some (comma_separated (list_records store_AEF o n)))
      ∧ (∀ k, k * 1 < 2 ^ 32 →
          (getlines (store_image sample [bm 1 65, bm 2 69, bm 3 70])).length ≤ k * 1 →
          ((List.range k).map fun i => list_records store_AEF (i * 1) 1).flatten
            = (getlines (store_image sample [bm 1 65, bm 2 69, bm 3 70])).map
                fun l => cstr (strtok_r l)) :=
  pages_tile sys_ok store_AEF (store_image sample [bm 1 65, bm 2 69, bm 3 70]) 0 1 2
    rfl (by decide) (by decide)

/-- The example of C17 evaluated on the store A, E, F: the pages of size 2 at
offsets 0 and 2 hold the three lines, once each and in order. -/
theorem pages_examples :
    list_records store_AEF 0 2 ++ list_records store_AEF 2 2
      = [(bookmarks_line sample 1 [65] [117] [116]).dropLast,
         (bookmarks_line sample 2 [69] [117] [116]).dropLast,
         (bookmarks_line sample 3 [70] [117] [116]).dropLast] := by
  decide

/-- When the lines built by the helpers hold no newline but their last byte,
`getline` reads a written store back as one line per record. -/
theorem getlines_store_image (x : Helpers) (recs : List Bookmark)
    (hx : ∀ (i : Int) (n u t : CStr), 10 ∉ (bookmarks_line x i n u t).dropLast) :
    (getlines (store_image x recs)).length = recs.length := by
  unfold store_image
  rw [getlines_flatten]
  · simp
  · intro l hl
    obtain ⟨p, _, rfl⟩ := List.mem_map.mp hl
    exact ⟨bookmarks_line_last x _ _ _ _, hx _ _ _ _⟩

end MyMPD
